import Mathlib

/-!
Verification of the vocal DSP chain (high-pass filter, spectral EQ, compressor,
de-esser, limiter, pipeline glue) of this repository.

The python sources operate on pydub AudioSegments whose int16 samples are
converted to float arrays, processed with numpy, and converted back.  The
shallow embedding below models an audio buffer as a `List ℤ` of int16 sample
values together with a sample rate `sr : ℕ`; float arithmetic is modelled by
exact real arithmetic (`ℝ`), numpy FFTs by the mathematical discrete Fourier
transform they compute (`np.fft.rfft` / `np.fft.irfft`, including the length
`2*(len-1)` of the default inverse), and the final `astype(np.int16)` by
truncation toward zero (every conversion in this code is reached either after
an explicit `np.clip` to the int16 range or with an exactly integer value).
-/

noncomputable section

namespace DSP

/-- `10 ** (db / 20)`: decibel value to linear amplitude factor. -/
def dB2lin (db : ℝ) : ℝ := (10 : ℝ) ^ (db / 20)

/-- Conversion of a float sample to an integer sample, as numpy `astype` into an
integer dtype behaves on in-range values: truncation toward zero. -/
def truncZ (x : ℝ) : ℤ := if 0 ≤ x then ⌊x⌋ else ⌈x⌉

/-- `np.clip x lo hi`. -/
def clipR (lo hi x : ℝ) : ℝ := min hi (max lo x)

/-- `np.mean` of a list (numpy raises/returns NaN on an empty slice; every use
in this development is guarded to be on a nonempty slice). -/
def npMean (l : List ℝ) : ℝ := l.sum / l.length

/-- `np.max (np.abs l)`: peak absolute value of a buffer (0 on the empty list;
numpy raises on an empty array, which the theorems exclude by hypothesis). -/
def maxAbs (l : List ℝ) : ℝ := (l.map fun x => |x|).foldr max 0

/-- Python slice `l[a:b]` for `a ≤ b` (clamped at the ends like python). -/
def pySlice (l : List ℝ) (a b : ℕ) : List ℝ := (l.drop a).take (b - a)

/-- Int16 samples of an AudioSegment as the float array
`np.array(audio.get_array_of_samples()).astype(np.float32)`. -/
def toF (samples : List ℤ) : List ℝ := samples.map fun (z : ℤ) => (z : ℝ)

/-- Sum of squared samples over the index window `[a, a+w)`; used to compare
windowed RMS energy of two buffers of equal length. -/
def winSumSq (l : List ℤ) (a w : ℕ) : ℤ := ∑ t ∈ Finset.range w, l.getD (a + t) 0 ^ 2

/-- Total sum of squared samples of a buffer (RMS energy up to the fixed
factor `1/n`). -/
def sumSqZ (l : List ℤ) : ℤ := (l.map fun z => z ^ 2).sum

/-- `np.hanning M` (numpy returns `[1]` for `M = 1`). -/
def hanning (M : ℕ) : List ℝ :=
  if M = 1 then [1] else
    (List.range M).map fun (k : ℕ) => 0.5 - 0.5 * Real.cos (2 * Real.pi * k / ((M : ℝ) - 1))

/-- One full turn of the unit circle to the power `t/n`: `exp (2πi t / n)`.
All numpy DFT kernels below are instances of this function. -/
def cexpTurn (n : ℕ) (t : ℤ) : ℂ := Complex.exp (2 * Real.pi * Complex.I * t / n)

/-- `np.fft.rfft x`: bin `k` (for `0 ≤ k ≤ n/2`) holds
`∑ m, x_m * exp (-2πi m k / n)`. -/
def rfft (x : List ℝ) : List ℂ :=
  (List.range (x.length / 2 + 1)).map fun (k : ℕ) =>
    ∑ m ∈ Finset.range x.length, (x.getD m 0 : ℂ) * cexpTurn x.length (-((m : ℤ) * k))

/-- `np.fft.rfftfreq n (1/sr)`: the frequency of bin `k` is `k * sr / n`. -/
def rfreq (n sr : ℕ) (k : ℕ) : ℝ := (k : ℝ) * sr / n

/-- Weight of bin `k` in the Hermitian-symmetric inverse: the DC bin and the
Nyquist bin appear once, every interior bin stands for itself and its
conjugate mirror. -/
def hermWeight (k len : ℕ) : ℂ := if k = 0 ∨ k + 1 = len then 1 else 2

/-- `np.fft.irfft c` (default output length `2*(len c - 1)`): reconstructs the
real signal whose Hermitian half-spectrum is `c`. -/
def irfft (c : List ℂ) : List ℝ :=
  (List.range (2 * (c.length - 1))).map fun (j : ℕ) =>
    (∑ k ∈ Finset.range c.length,
        hermWeight k c.length * c.getD k 0 * cexpTurn (2 * (c.length - 1)) ((j : ℤ) * k)).re
      / ((2 * (c.length - 1) : ℕ) : ℝ)

/- ### Basic facts about the embedding primitives -/

theorem maxAbs_nonneg (l : List ℝ) : 0 ≤ maxAbs l := by
  induction l with
  | nil => simp [maxAbs]
  | cons a t ih =>
      simp only [maxAbs, List.map_cons, List.foldr_cons] at *
      exact le_trans ih (le_max_right _ _)

theorem abs_getD_le_maxAbs (l : List ℝ) (j : ℕ) : |l.getD j 0| ≤ maxAbs l := by
  induction l generalizing j with
  | nil => simpa [maxAbs] using le_refl (0:ℝ)
  | cons a t ih =>
      cases j with
      | zero => simp [maxAbs]
      | succ j =>
          simp only [maxAbs, List.map_cons, List.foldr_cons, List.getD_cons_succ]
          exact le_trans (ih j) (le_max_right _ _)

theorem abs_truncZ_le (x : ℝ) : |(truncZ x : ℝ)| ≤ |x| := by
  unfold truncZ
  split
  · next h =>
      rw [abs_of_nonneg h, abs_of_nonneg]
      · exact Int.floor_le x
      · exact_mod_cast Int.floor_nonneg.mpr h
  · next h =>
      push_neg at h
      rw [abs_of_neg h, abs_of_nonpos]
      · push_cast
        simpa using Int.le_ceil x
      · have : (⌈x⌉ : ℤ) ≤ 0 := Int.ceil_le.mpr (by exact_mod_cast h.le)
        exact_mod_cast this

theorem truncZ_intCast (z : ℤ) : truncZ (z : ℝ) = z := by
  unfold truncZ
  split <;> simp

theorem abs_clipR_le (x : ℝ) : |clipR (-32768) 32767 x| ≤ |x| := by
  unfold clipR
  rcases le_or_lt x (-32768) with h | h
  · rw [max_eq_left h, min_eq_right (by norm_num : (-32768:ℝ) ≤ 32767)]
    rw [abs_of_nonpos (by norm_num), abs_of_nonpos (le_trans h (by norm_num))]
    linarith
  · rw [max_eq_right h.le]
    rcases le_or_lt x 32767 with h2 | h2
    · rw [min_eq_right h2]
    · rw [min_eq_left h2.le, abs_of_nonneg (by norm_num), abs_of_nonneg (by linarith)]
      linarith

theorem clipR_eq_self {x : ℝ} (h1 : -32768 ≤ x) (h2 : x ≤ 32767) :
    clipR (-32768) 32767 x = x := by
  unfold clipR
  rw [max_eq_right h1, min_eq_right h2]

theorem dB2lin_pos (db : ℝ) : 0 < dB2lin db :=
  Real.rpow_pos_of_pos (by norm_num) _

theorem dB2lin_lt_one {db : ℝ} (h : db < 0) : dB2lin db < 1 :=
  Real.rpow_lt_one_of_one_lt_of_neg (by norm_num) (by linarith)

theorem getD_map_range {α : Type} [Inhabited α] (L : ℕ) (f : ℕ → α) (j : ℕ) (d : α)
    (h : j < L) : (((List.range L).map f).getD j d) = f j := by
  rw [List.getD_eq_getElem?_getD]
  simp [List.getElem?_map, List.getElem?_range, h]

/- ### The DFT kernel `cexpTurn` -/

theorem cexpTurn_add (n : ℕ) (s t : ℤ) :
    cexpTurn n (s + t) = cexpTurn n s * cexpTurn n t := by
  unfold cexpTurn
  rw [← Complex.exp_add]
  congr 1
  push_cast
  ring

theorem cexpTurn_pow (n : ℕ) (t : ℤ) (k : ℕ) :
    cexpTurn n t ^ k = cexpTurn n (t * k) := by
  unfold cexpTurn
  rw [← Complex.exp_nat_mul]
  congr 1
  push_cast
  ring

theorem two_pi_I_ne_zero : (2 * (Real.pi : ℂ) * Complex.I) ≠ 0 := by
  simp [Complex.I_ne_zero, Complex.ofReal_ne_zero, Real.pi_ne_zero]

theorem cexpTurn_n_mul (n : ℕ) (hn : n ≠ 0) (e : ℤ) : cexpTurn n ((n : ℤ) * e) = 1 := by
  unfold cexpTurn
  have harg : 2 * (Real.pi : ℂ) * Complex.I * ((n : ℤ) * e : ℤ) / (n : ℂ) =
      (e : ℂ) * (2 * (Real.pi : ℂ) * Complex.I) := by
    have hnc : (n : ℂ) ≠ 0 := Nat.cast_ne_zero.mpr hn
    field_simp
    ring
  rw [harg]
  exact Complex.exp_int_mul_two_pi_mul_I e

theorem conj_cexpTurn (n : ℕ) (t : ℤ) :
    (starRingEnd ℂ) (cexpTurn n t) = cexpTurn n (-t) := by
  unfold cexpTurn
  rw [← Complex.exp_conj]
  congr 1
  simp only [map_div₀, map_mul, map_ofNat, Complex.conj_I, Complex.conj_ofReal, map_intCast,
    map_natCast]
  push_cast
  ring

/-- Orthogonality of the DFT characters: summing a full turn to the power
`d k / n` over `k < n` gives `n` when `n ∣ d` and 0 otherwise. -/
theorem sum_cexpTurn_eq (n : ℕ) (hn : 0 < n) (d : ℤ) :
    ∑ k ∈ Finset.range n, cexpTurn n (d * k) =
      if (n : ℤ) ∣ d then (n : ℂ) else 0 := by
  have hterm : ∀ k : ℕ, cexpTurn n (d * k) = cexpTurn n d ^ k := fun k =>
    (cexpTurn_pow n d k).symm
  by_cases hdvd : (n : ℤ) ∣ d
  · obtain ⟨e, he⟩ := hdvd
    have hone : cexpTurn n d = 1 := by
      rw [he]
      exact cexpTurn_n_mul n hn.ne' e
    rw [Finset.sum_congr rfl fun k _ => hterm k, if_pos (show (n : ℤ) ∣ d from ⟨e, he⟩)]
    simp [hone]
  · have hpow : cexpTurn n d ^ n = 1 := by
      rw [cexpTurn_pow]
      rw [show d * (n : ℤ) = (n : ℤ) * d by ring]
      exact cexpTurn_n_mul n hn.ne' d
    have hne1 : cexpTurn n d ≠ 1 := by
      intro h1
      apply hdvd
      rw [cexpTurn, Complex.exp_eq_one_iff] at h1
      obtain ⟨m, hm⟩ := h1
      have hnc : (n : ℂ) ≠ 0 := Nat.cast_ne_zero.mpr hn.ne'
      have hd : (d : ℂ) = (m : ℂ) * n := by
        field_simp at hm
        have := mul_left_cancel₀ two_pi_I_ne_zero
          (show 2 * (Real.pi : ℂ) * Complex.I * (d : ℂ) =
              2 * (Real.pi : ℂ) * Complex.I * ((m : ℂ) * n) by
            rw [hm]; ring)
        exact this
      have hd2 : d = m * n := by exact_mod_cast hd
      exact ⟨m, by rw [hd2]; ring⟩
    rw [Finset.sum_congr rfl fun k _ => hterm k, geom_sum_eq hne1, hpow]
    simp [if_neg hdvd]

/- ### Inversion of the numpy real FFT on even-length inputs -/

theorem length_rfft (x : List ℝ) : (rfft x).length = x.length / 2 + 1 := by
  simp [rfft]

theorem length_irfft (c : List ℂ) : (irfft c).length = 2 * (c.length - 1) := by
  simp [irfft]

theorem getD_rfft (x : List ℝ) (k : ℕ) (h : k < x.length / 2 + 1) :
    (rfft x).getD k 0 =
      ∑ m ∈ Finset.range x.length, (x.getD m 0 : ℂ) * cexpTurn x.length (-((m : ℤ) * k)) := by
  unfold rfft
  exact getD_map_range _ _ _ _ h

/-- `np.fft.irfft (np.fft.rfft x)` returns exactly `x` when `x` has even
length.  (On odd lengths the default inverse returns `len x - 1` samples; see
the length theorems for the stages.) -/
theorem irfft_rfft (x : List ℝ) (hev : 2 ∣ x.length) : irfft (rfft x) = x := by
  rcases Nat.eq_zero_or_pos x.length with h0 | hpos
  · have hx : x = [] := List.length_eq_zero.mp h0
    subst hx
    simp [irfft, rfft]
  · obtain ⟨h, hn2⟩ := hev
    have hh1 : 1 ≤ h := by omega
    set n := x.length with hn
    have hdiv : n / 2 = h := by omega
    have hlenr : (rfft x).length = h + 1 := by rw [length_rfft, ← hn, hdiv]
    have hlen : (irfft (rfft x)).length = n := by
      rw [length_irfft, hlenr]
      omega
    -- the full-spectrum summand T k = ∑ m, x_m · e^(2πi k (j-m) / n), for a fixed j
    apply List.ext_getElem (by rw [hlen])
    intro j hj hjx
    rw [hlen] at hj
    set T : ℕ → ℂ := fun k =>
      ∑ m ∈ Finset.range n, (x.getD m 0 : ℂ) * cexpTurn n ((k : ℤ) * ((j : ℤ) - m)) with hT
    have hTconj : ∀ k : ℕ, k ≤ n → T (n - k) = (starRingEnd ℂ) (T k) := by
      intro k hk
      rw [hT, map_sum]
      refine Finset.sum_congr rfl fun m _ => ?_
      rw [map_mul, Complex.conj_ofReal, conj_cexpTurn]
      congr 1
      have hcast : ((n - k : ℕ) : ℤ) = (n : ℤ) - k := by omega
      rw [hcast, show ((n : ℤ) - k) * ((j : ℤ) - m) =
        (n : ℤ) * ((j : ℤ) - m) + -((k : ℤ) * ((j : ℤ) - m)) by ring, cexpTurn_add,
        cexpTurn_n_mul n hpos.ne', one_mul]
    -- the irfft entry is the real part of the weighted half-spectrum sum over n
    have hentry : (irfft (rfft x))[j] =
        (∑ k ∈ Finset.range (h + 1),
          hermWeight k (h + 1) * (rfft x).getD k 0 * cexpTurn n ((j : ℤ) * k)).re / n := by
      unfold irfft
      rw [List.getElem_map, List.getElem_range]
      rw [hlenr]
      have : 2 * (h + 1 - 1) = n := by omega
      rw [this]
    rw [hentry]
    -- rewrite each term into T form
    have hterm : ∀ k ∈ Finset.range (h + 1),
        hermWeight k (h + 1) * (rfft x).getD k 0 * cexpTurn n ((j : ℤ) * k) =
          hermWeight k (h + 1) * T k := by
      intro k hk
      rw [Finset.mem_range] at hk
      rw [getD_rfft x k (by rw [← hn, hdiv]; omega), ← hn]
      rw [mul_assoc, Finset.sum_mul]
      congr 1
      refine Finset.sum_congr rfl fun m _ => ?_
      rw [mul_assoc, ← cexpTurn_add]
      congr 2
      ring
    rw [Finset.sum_congr rfl hterm]
    -- split the weights: ∑ W_k T k = ∑_{k ≤ h} T k + ∑_{1 ≤ k < h} T k
    have hsplit : ∑ k ∈ Finset.range (h + 1), hermWeight k (h + 1) * T k =
        (∑ k ∈ Finset.range (h + 1), T k) +
          ∑ k ∈ Finset.Ico 1 h, T k := by
      have hW : ∀ k ∈ Finset.range (h + 1),
          hermWeight k (h + 1) * T k =
            T k + (if k = 0 ∨ k + 1 = h + 1 then 0 else T k) := by
        intro k _
        by_cases hk : k = 0 ∨ k + 1 = h + 1
        · rw [hermWeight, if_pos hk, if_pos hk, one_mul, add_zero]
        · rw [hermWeight, if_neg hk, if_neg hk]
          ring
      rw [Finset.sum_congr rfl hW, Finset.sum_add_distrib]
      congr 1
      rw [Finset.sum_ite, Finset.sum_const_zero, zero_add]
      apply Finset.sum_congr _ fun k _ => rfl
      ext k
      simp only [Finset.mem_filter, Finset.mem_range, Finset.mem_Ico]
      omega
    rw [hsplit]
    -- mirror the interior sum to the upper half of the spectrum
    have hmirror : (∑ k ∈ Finset.Ico 1 h, T k).re =
        (∑ k ∈ Finset.Ico (h + 1) n, T k).re := by
      have : ∑ k ∈ Finset.Ico (h + 1) n, T k =
          ∑ k ∈ Finset.Ico 1 h, (starRingEnd ℂ) (T k) := by
        refine Finset.sum_nbij' (fun k => n - k) (fun k => n - k) ?_ ?_ ?_ ?_ ?_
        · intro a ha
          simp only [Finset.mem_Ico] at ha ⊢
          omega
        · intro a ha
          simp only [Finset.mem_Ico] at ha ⊢
          omega
        · intro a ha
          simp only [Finset.mem_Ico] at ha ⊢
          omega
        · intro a ha
          simp only [Finset.mem_Ico] at ha ⊢
          omega
        · intro a ha
          simp only [Finset.mem_Ico] at ha
          show T a = (starRingEnd ℂ) (T (n - a))
          have h1 : T a = T (n - (n - a)) := by rw [show n - (n - a) = a by omega]
          rw [h1, hTconj (n - a) (by omega)]
      rw [this, ← map_sum, Complex.conj_re]
    rw [Complex.add_re, hmirror, ← Complex.add_re]
    have hjoin : (∑ k ∈ Finset.range (h + 1), T k) + ∑ k ∈ Finset.Ico (h + 1) n, T k =
        ∑ k ∈ Finset.range n, T k := by
      simp only [Finset.range_eq_Ico]
      exact Finset.sum_Ico_consecutive T (by omega) (by omega)
    rw [hjoin]
    -- orthogonality: the full sum collapses to n * x_j
    have hfull : ∑ k ∈ Finset.range n, T k = (n : ℂ) * (x.getD j 0 : ℂ) := by
      rw [hT]
      rw [Finset.sum_comm]
      have hinner : ∀ m ∈ Finset.range n,
          ∑ k ∈ Finset.range n, (x.getD m 0 : ℂ) * cexpTurn n ((k : ℤ) * ((j : ℤ) - m)) =
            (x.getD m 0 : ℂ) * (if (n : ℤ) ∣ ((j : ℤ) - m) then (n : ℂ) else 0) := by
        intro m _
        rw [← Finset.mul_sum]
        congr 1
        rw [← sum_cexpTurn_eq n hpos ((j : ℤ) - m)]
        exact Finset.sum_congr rfl fun k _ => by rw [mul_comm ((j : ℤ) - m) (k : ℤ)]
      rw [Finset.sum_congr rfl hinner]
      rw [Finset.sum_eq_single j]
      · simp [mul_comm]
      · intro m hm hmj
        rw [Finset.mem_range] at hm
        have hnd : ¬ (n : ℤ) ∣ ((j : ℤ) - m) := by
          intro ⟨e, he⟩
          rcases lt_trichotomy e 0 with he1 | he1 | he1
          · have : (n : ℤ) * e ≤ -n := by
              have : e ≤ -1 := by omega
              nlinarith [Int.ofNat_pos.mpr hpos]
            omega
          · subst he1
            simp at he
            omega
          · have : (n : ℤ) ≤ (n : ℤ) * e := by
              have : 1 ≤ e := by omega
              nlinarith [Int.ofNat_pos.mpr hpos]
            omega
        rw [if_neg hnd, mul_zero]
      · intro hjn
        exact absurd (Finset.mem_range.mpr hj) hjn
    rw [hfull]
    have : ((n : ℂ) * (x.getD j 0 : ℂ)).re = (n : ℝ) * x.getD j 0 := by
      simp [Complex.mul_re]
    rw [this]
    rw [mul_comm, mul_div_assoc, div_self (show (n : ℝ) ≠ 0 by exact_mod_cast hpos.ne'),
      mul_one]
    exact List.getD_eq_getElem x 0 hjx

/-- The 1 ms moving-average smoothing that both the look-ahead limiter and the
de-esser apply to their gain curve (`smooth_window = int(sr * 0.001)`, applied
only when it exceeds 1). -/
def smoothGain (g : List ℝ) (sw : ℕ) : List ℝ :=
  if 1 < sw then
    (List.range g.length).map fun (i : ℕ) =>
      npMean (pySlice g (i - sw / 2) (min g.length (i + sw / 2)))
  else g

/-- Gaussian bell `1 + (gain_linear - 1) * exp(-(f - center)^2 / (2*(bw/2)^2))`
with `bw = center / q`; this same formula appears in src/eq.py (`apply_bell`)
and in the compressor harmonic compensation. -/
def bell (center gain_db q f : ℝ) : ℝ :=
  1 + (dB2lin gain_db - 1) * Real.exp (-(f - center) ^ 2 / (2 * (center / q / 2) ^ 2))

theorem bell_pos (center gain_db q f : ℝ) : 0 < bell center gain_db q f := by
  unfold bell
  have he0 : 0 < Real.exp (-(f - center) ^ 2 / (2 * (center / q / 2) ^ 2)) := Real.exp_pos _
  have he1 : Real.exp (-(f - center) ^ 2 / (2 * (center / q / 2) ^ 2)) ≤ 1 := by
    apply Real.exp_le_one_iff.mpr
    apply div_nonpos_of_nonpos_of_nonneg
    · simp [neg_nonpos, sq_nonneg]
    · positivity
  rcases le_or_lt 1 (dB2lin gain_db) with hg | hg
  · nlinarith
  · nlinarith [dB2lin_pos gain_db]

/-! ### src/backend/dsp/filters.py -/

namespace Filters

/-- `high_pass_filter`: FFT the samples, zero every bin whose frequency is
below `cutoff`, inverse FFT, convert back to int16. -/
def high_pass_filter (samples : List ℤ) (sr : ℕ) (cutoff : ℕ) : List ℤ :=
  let s := toF samples
  let fft := rfft s
  let fft2 := (List.range fft.length).map fun (k : ℕ) =>
    if rfreq s.length sr k < cutoff then 0 else fft.getD k 0
  (irfft fft2).map truncZ

end Filters

/-! ### src/backend/dsp/eq.py -/

namespace BackendEq

/-- `apply_eq` (backend three-band EQ).  The `low/mid/high` region masks
partition the bins, so the three in-place multiplications of the source are one
gain per bin. -/
def apply_eq (samples : List ℤ) (sr : ℕ) (low_gain_db mid_gain_db high_gain_db : ℝ) :
    List ℤ :=
  let s := toF samples
  let fft := rfft s
  let fft2 := (List.range fft.length).map fun (k : ℕ) =>
    if rfreq s.length sr k < 250 then dB2lin low_gain_db * fft.getD k 0
    else if rfreq s.length sr k < 4000 then dB2lin mid_gain_db * fft.getD k 0
    else dB2lin high_gain_db * fft.getD k 0
  (irfft fft2).map truncZ

end BackendEq

/-! ### src/backend/dsp/deesser.py -/

namespace BackendDeesser

/-- The temporary array produced by the fancy indexing `fft[s_region]` with the
reduction applied to its over-threshold entries.  In the source the statement
`fft[s_region][mask] *= reduction` multiplies entries of this copy in place
and then discards it, so `fft` itself is never modified. -/
def scaledSibilantCopy (samples : List ℤ) (sr : ℕ) (threshold_db reduction_db : ℝ) :
    List ℂ :=
  let s := toF samples
  let fft := rfft s
  let threshold := dB2lin threshold_db
  let reduction := dB2lin reduction_db
  ((List.range fft.length).filter fun k =>
      decide (5000 ≤ rfreq s.length sr k ∧ rfreq s.length sr k ≤ 10000)).map
    fun (k : ℕ) =>
      if threshold < Complex.abs (fft.getD k 0) then (reduction : ℂ) * fft.getD k 0
      else fft.getD k 0

/-- `apply_deesser` (backend): the sibilance reduction happens on the discarded
fancy-indexing copy, so the spectrum reaching the inverse FFT is the plain
`rfft` of the input. -/
def apply_deesser (samples : List ℤ) (sr : ℕ) (threshold_db reduction_db : ℝ) : List ℤ :=
  let s := toF samples
  let fft := rfft s
  let _discarded := scaledSibilantCopy samples sr threshold_db reduction_db
  (irfft fft).map truncZ

end BackendDeesser

/-! ### src/backend/dsp/limiter.py -/

namespace BackendLimiter

/-- `apply_limiter` (backend simple peak limiter): scale down when the peak
exceeds `ceiling * 32767`, clip to the int16 range, convert. -/
def apply_limiter (samples : List ℤ) (ceiling_db : ℝ) : List ℤ :=
  let s := toF samples
  let ceiling := dB2lin ceiling_db
  let peak := maxAbs s
  if peak = 0 then samples
  else
    let s2 := if peak > ceiling * 32767 then s.map fun x => x * (ceiling * 32767 / peak)
              else s
    (s2.map (clipR (-32768) 32767)).map truncZ

end BackendLimiter

/-! ### src/backend/dsp/dsp_chain.py (soft-clip saturation) -/

namespace Chain

/-- The float samples of `soft_clip_saturation` before the cast back to the
int16 array type: `np.tanh(samples * drive / 32768.0) * 32768.0`. -/
def soft_clip_float (samples : List ℤ) (drive : ℝ) : List ℝ :=
  (toF samples).map fun x => Real.tanh (x * drive / 32768) * 32768

/-- `soft_clip_saturation` from src/backend/dsp/dsp_chain.py. -/
def soft_clip_saturation (samples : List ℤ) (drive : ℝ) : List ℤ :=
  (soft_clip_float samples drive).map truncZ

end Chain

/-! ### src/backend/dsp/compressor.py -/

namespace Compressor

/-- `rms_window_size = int(sr * 0.01)`, clamped to at least 1. -/
def rmsWindowSize (sr : ℕ) : ℕ := if sr / 100 < 1 then 1 else sr / 100

/-- `rms_values[i]`: RMS over the centered sliding window
`[max(0, i - w/2), min(n, i + w/2))`. -/
def rmsAt (sn : List ℝ) (w : ℕ) (i : ℕ) : ℝ :=
  Real.sqrt (npMean ((pySlice sn (i - w / 2) (min sn.length (i + w / 2))).map fun x => x ^ 2))

def rmsList (sn : List ℝ) (w : ℕ) : List ℝ :=
  (List.range sn.length).map fun (i : ℕ) => rmsAt sn w i

def attackCoeff (sr : ℕ) (attack : ℝ) : ℝ := Real.exp (-1 / (sr * (attack / 1000)))

def releaseCoeff (sr : ℕ) (release : ℝ) : ℝ := Real.exp (-1 / (sr * (release / 1000)))

/-- `knee_width_linear` for the fixed 3 dB knee. -/
def kneeWidthLin : ℝ := dB2lin 3

/-- The envelope-follower / soft-knee loop of `apply_compression`: carries the
envelope through the RMS stream and emits the per-sample gain. -/
def gainLoop (ac rc ks ke tl ratio : ℝ) : ℝ → List ℝ → List ℝ
  | _, [] => []
  | env, rms :: rest =>
      let env2 := if rms > env then ac * env + (1 - ac) * rms else rc * env + (1 - rc) * rms
      let g :=
        if env2 < ks then 1
        else if env2 < ke then
          1 / (env2 / ks) ^ (1 - 1 / (1 + (ratio - 1) * ((env2 - ks) / (ke - ks))))
        else
          1 / (env2 / tl) ^ (1 - 1 / ratio)
      g :: gainLoop ac rc ks ke tl ratio env2 rest

/-- The per-sample gain curve of `apply_compression`. -/
def gainCurve (samples : List ℤ) (sr : ℕ) (threshold ratio attack release : ℝ) : List ℝ :=
  let s := toF samples
  let mv := maxAbs s
  let sn := if mv > 0 then s.map fun x => x / mv else s
  let tl := dB2lin threshold
  gainLoop (attackCoeff sr attack) (releaseCoeff sr release) (tl / kneeWidthLin)
    (tl * kneeWidthLin) tl ratio 0 (rmsList sn (rmsWindowSize sr))

/-- `compressed` in the source: normalized samples times the gain curve, scaled
back by the original peak. -/
def compressedSignal (samples : List ℤ) (sr : ℕ) (threshold ratio attack release : ℝ) :
    List ℝ :=
  let s := toF samples
  let mv := maxAbs s
  let sn := if mv > 0 then s.map fun x => x / mv else s
  let c := List.zipWith (fun a b => a * b) sn (gainCurve samples sr threshold ratio attack release)
  if mv > 0 then c.map fun x => x * mv else c

/-- `apply_compression`: compression gain, then the always-applied harmonic
compensation (+1 dB Gaussian bell at 3 kHz on the Hann-windowed FFT) with peak
renormalization, clip, int16 conversion. -/
def apply_compression (samples : List ℤ) (sr : ℕ) (threshold ratio attack release : ℝ) :
    List ℤ :=
  let compressed := compressedSignal samples sr threshold ratio attack release
  let windowed := List.zipWith (fun a b => a * b) compressed (hanning compressed.length)
  let fftc := rfft windowed
  let fft2 := (List.range fftc.length).map fun (k : ℕ) =>
    fftc.getD k 0 * ((bell 3000 1 2 (rfreq compressed.length sr k) : ℝ) : ℂ)
  let compensated := irfft fft2
  let cPeak := if 0 < compressed.length then maxAbs compressed else 1
  let dPeak := if 0 < compensated.length then maxAbs compensated else 1
  let normalized := if dPeak > 0 then compensated.map fun x => x * (cPeak / dPeak)
                    else compensated
  (normalized.map (clipR (-32768) 32767)).map truncZ

end Compressor

/-! ### src/eq.py -/

namespace EqCurve

/-- The five-bell gain curve of src/eq.py `apply_eq` at frequency `f`
(warmth, mud, nasal, presence, air — applied multiplicatively in this order). -/
def gainCurve (f : ℝ) : ℝ :=
  bell 150 3 1.5 f * bell 300 (-2) 2 f * bell 500 (-3) 2 f * bell 2500 2.5 1.5 f *
    bell 8000 4 2 f

theorem gainCurve_pos (f : ℝ) : 0 < gainCurve f := by
  unfold gainCurve
  have h1 := bell_pos 150 3 1.5 f
  have h2 := bell_pos 300 (-2) 2 f
  have h3 := bell_pos 500 (-3) 2 f
  have h4 := bell_pos 2500 2.5 1.5 f
  have h5 := bell_pos 8000 4 2 f
  positivity

/-- `filtered` in src/eq.py before the peak renormalization: inverse FFT of the
bell curve applied to the Hann-windowed FFT. -/
def eqFiltered (samples : List ℤ) (sr : ℕ) : List ℝ :=
  let s := toF samples
  let windowed := List.zipWith (fun a b => a * b) s (hanning s.length)
  let fft := rfft windowed
  let fft2 := (List.range fft.length).map fun (k : ℕ) =>
    fft.getD k 0 * ((gainCurve (rfreq s.length sr k) : ℝ) : ℂ)
  irfft fft2

/-- The float output of src/eq.py `apply_eq`: `filtered` rescaled so its peak
matches the input peak, when the filtered peak is nonzero. -/
def eqNormalized (samples : List ℤ) (sr : ℕ) : List ℝ :=
  let s := toF samples
  let filtered := eqFiltered samples sr
  let op := if 0 < s.length then maxAbs s else 1
  let fp := if 0 < filtered.length then maxAbs filtered else 1
  if fp > 0 then filtered.map fun x => x * (op / fp) else filtered

/-- `apply_eq` from src/eq.py (no clip before the int16 conversion in this
stage). -/
def apply_eq (samples : List ℤ) (sr : ℕ) : List ℤ :=
  (eqNormalized samples sr).map truncZ

end EqCurve

/-! ### src/deesser.py -/

namespace Deesser

/-- `window_size = int(sr * 0.01)`, clamped to at least 1. -/
def windowSize (sr : ℕ) : ℕ := if sr / 100 < 1 then 1 else sr / 100

/-- `hop_size = window_size // 4`, clamped to at least 1. -/
def hopSize (sr : ℕ) : ℕ := if windowSize sr / 4 < 1 then 1 else windowSize sr / 4

/-- Number of iterations of `range(0, n - window_size, hop_size)`. -/
def numWindows (n sr : ℕ) : ℕ := (n - windowSize sr + hopSize sr - 1) / hopSize sr

/-- The window start indices `range(0, n - window_size, hop_size)`. -/
def windowStarts (n sr : ℕ) : List ℕ :=
  (List.range (numWindows n sr)).map fun (i : ℕ) => i * hopSize sr

/-- The 6-9 kHz band isolation of one analysis window: FFT of the window, zero
everything outside `[fs, fe]`, inverse FFT. -/
def bandSignal (sn : List ℝ) (sr fs fe : ℕ) (i : ℕ) : List ℝ :=
  let w := pySlice sn i (i + windowSize sr)
  let fftw := rfft w
  let masked := (List.range fftw.length).map fun (k : ℕ) =>
    if (fs : ℝ) ≤ rfreq w.length sr k ∧ rfreq w.length sr k ≤ (fe : ℝ) then fftw.getD k 0
    else 0
  irfft masked

/-- `combined_level = 0.6 * rms(band) + 0.4 * peak(band)`. -/
def combinedLevel (sn : List ℝ) (sr fs fe : ℕ) (i : ℕ) : ℝ :=
  let band := bandSignal sn sr fs fe i
  0.6 * Real.sqrt (npMean (band.map fun x => x ^ 2)) + 0.4 * maxAbs band

/-- Release-only detector update: instant rise, exponential decay. -/
def detStep (rc lvl det : ℝ) : ℝ := if lvl > det then lvl else rc * det + (1 - rc) * lvl

/-- The value of `detected_level` at the moment each successive window is
processed. -/
def detectorLevels (sn : List ℝ) (sr fs fe : ℕ) (rc : ℝ) : List ℕ → ℝ → List ℝ
  | [], _ => []
  | i :: rest, det =>
      let det2 := detStep rc (combinedLevel sn sr fs fe i) det
      det2 :: detectorLevels sn sr fs fe rc rest det2

/-- `reduction_factor = 1 - (1 - reduction_linear) * min(1, (over - 1) * 0.6)`. -/
def reductionFactor (rl θl det : ℝ) : ℝ := 1 - (1 - rl) * min 1 ((det / θl - 1) * 0.6)

/-- `gain_reduction[j] = f(gain_reduction[j])` for `a ≤ j < b`. -/
def updateRange (g : List ℝ) (a b : ℕ) (f : ℝ → ℝ) : List ℝ :=
  (List.range g.length).map fun (j : ℕ) =>
    if a ≤ j ∧ j < b then f (g.getD j 0) else g.getD j 0

/-- The window loop of `apply_deesser`: walks the window starts carrying the
detected level, taking the pointwise minimum with the reduction factor over
each triggered window range. -/
def gainFold (sn : List ℝ) (sr fs fe : ℕ) (rc θl rl : ℝ) :
    List ℕ → List ℝ → ℝ → List ℝ
  | [], g, _ => g
  | i :: rest, g, det =>
      let det2 := detStep rc (combinedLevel sn sr fs fe i) det
      let g2 :=
        if det2 > θl then
          updateRange g i (min (i + windowSize sr) g.length)
            fun x => min x (reductionFactor rl θl det2)
        else g
      gainFold sn sr fs fe rc θl rl rest g2 det2

/-- `apply_deesser` from src/deesser.py. -/
def apply_deesser (samples : List ℤ) (sr fs fe : ℕ) (threshold : ℝ) : List ℤ :=
  let s := toF samples
  let mv := maxAbs s
  if mv = 0 then samples
  else
    let sn := s.map fun x => x / mv
    let g := gainFold sn sr fs fe (Real.exp (-1 / (sr * (25 / 1000)))) (dB2lin threshold)
      (dB2lin (-4)) (windowStarts sn.length sr) (List.replicate sn.length 1) 0
    let gs := smoothGain g (sr / 1000)
    let out := (List.zipWith (fun a b => a * b) sn gs).map fun x => x * mv
    (out.map (clipR (-32768) 32767)).map truncZ

end Deesser

/-! ### src/limiter.py -/

namespace Limiter

/-- `lookahead_samples = int(sr * 0.0015)`, clamped to at least 1. -/
def lookaheadSamples (sr : ℕ) : ℕ :=
  if sr * 15 / 10000 < 1 then 1 else sr * 15 / 10000

/-- `estimate_true_peak` from src/limiter.py: max of the sample and its
neighbors with a 10% margin on the three-point mean. -/
def estimateTruePeak (signal : List ℝ) (idx : ℕ) : ℝ :=
  if idx = 0 then |signal.getD 0 0|
  else if signal.length - 1 ≤ idx then |signal.getD (signal.length - 1) 0|
  else
    max (max |signal.getD (idx - 1) 0| (max |signal.getD idx 0| |signal.getD (idx + 1) 0|))
      ((|signal.getD (idx - 1) 0| + |signal.getD idx 0| + |signal.getD (idx + 1) 0|) / 3 * 1.1)

/-- One iteration of the gain loop of `apply_limiter` (the running
`gain_reduction` is the clamped value recorded in `gain_history[i]`). -/
def gainStep (sn padded : List ℝ) (la : ℕ) (cl ac rc rcv : ℝ) (g : ℝ) (i : ℕ) : ℝ :=
  let tp := if i + la < padded.length then estimateTruePeak padded (i + la)
            else estimateTruePeak sn (min i (sn.length - 1))
  let g2 :=
    if tp > cl then
      min (ac * g + (1 - ac) * (cl / tp)) (cl / tp)
    else
      let cur := |if i + la < padded.length then padded.getD (i + la) 0
                  else sn.getD (min i (sn.length - 1)) 0|
      if cur < cl * 0.3 ∧ g < 0.99 then rcv * g + (1 - rcv) * 1
      else rc * g + (1 - rc) * 1
  min 1 (max 0 g2)

/-- `gain_history`: fold of `gainStep` over the sample indices. -/
def gainHistory (sn padded : List ℝ) (la : ℕ) (cl ac rc rcv : ℝ) :
    ℝ → List ℕ → List ℝ
  | _, [] => []
  | g, i :: rest =>
      let g2 := gainStep sn padded la cl ac rc rcv g i
      g2 :: gainHistory sn padded la cl ac rc rcv g2 rest

/-- `apply_limiter` from src/limiter.py (look-ahead true-peak limiter). -/
def apply_limiter (samples : List ℤ) (sr : ℕ) (ceiling : ℝ) : List ℤ :=
  let s := toF samples
  if s.length = 0 then samples
  else
    let mv := maxAbs s
    if mv = 0 then samples
    else
      let sn := s.map fun x => x / mv
      let la := lookaheadSamples sr
      let padded := sn ++ List.replicate la 0
      let gh := gainHistory sn padded la (dB2lin ceiling)
        (Real.exp (-1 / (sr * (0.5 / 1000)))) (Real.exp (-1 / (sr * (30 / 1000))))
        (Real.exp (-1 / (sr * (10 / 1000)))) 1 (List.range sn.length)
      let gs := smoothGain gh (sr / 1000)
      let out := (List.zipWith (fun a b => a * b) sn gs).map fun x => x * mv
      (out.map (clipR (-32768) 32767)).map truncZ

end Limiter

/- ### Shared list evaluation lemmas -/

theorem getD_replicate_self {α : Type} (n j : ℕ) (a : α) :
    (List.replicate n a).getD j a = a := by
  rw [List.getD_eq_getElem?_getD, List.getElem?_replicate]
  split <;> simp

theorem map_range_eq_replicate {α : Type} (L : ℕ) (f : ℕ → α) (c : α)
    (h : ∀ k < L, f k = c) : (List.range L).map f = List.replicate L c := by
  apply List.eq_replicate.mpr
  refine ⟨by simp, ?_⟩
  intro b hb
  rw [List.mem_map] at hb
  obtain ⟨k, hk, hfk⟩ := hb
  rw [List.mem_range] at hk
  rw [← hfk, h k hk]

theorem maxAbs_lt_of_forall (l : List ℝ) (c : ℝ) (hc : 0 < c)
    (h : ∀ x ∈ l, |x| < c) : maxAbs l < c := by
  induction l with
  | nil => simpa [maxAbs] using hc
  | cons a t ih =>
      simp only [maxAbs, List.map_cons, List.foldr_cons]
      apply max_lt (h a (by simp))
      exact ih fun x hx => h x (by simp [hx])

theorem abs_tanh_lt_one (x : ℝ) : |Real.tanh x| < 1 := by
  rw [Real.tanh_eq_sinh_div_cosh, abs_div, abs_of_pos (Real.cosh_pos x),
    div_lt_one (Real.cosh_pos x)]
  nlinarith [Real.cosh_sq x, abs_nonneg (Real.sinh x), sq_abs (Real.sinh x),
    Real.cosh_pos x]

/- ### Claim theorems -/

/-- Claim C10: for every input buffer and every drive value, every float output
sample of `soft_clip_saturation` has absolute value strictly below 32768
(because `|tanh| < 1` bounds the signal before the cast), so the conversion to
the int16 output sample type cannot overflow: every converted sample has
absolute value at most 32767. -/
theorem C10_soft_clip_bounded (samples : List ℤ) (drive : ℝ) :
    maxAbs (Chain.soft_clip_float samples drive) < 32768 ∧
      (Chain.soft_clip_saturation samples drive).Forall fun z => z.natAbs ≤ 32767 := by
  have hfl : ∀ x ∈ Chain.soft_clip_float samples drive, |x| < 32768 := by
    intro x hx
    rw [Chain.soft_clip_float, List.mem_map] at hx
    obtain ⟨y, _, hy⟩ := hx
    rw [← hy, abs_mul, abs_of_pos (show (0:ℝ) < 32768 by norm_num)]
    calc |Real.tanh (y * drive / 32768)| * 32768 < 1 * 32768 := by
          have := abs_tanh_lt_one (y * drive / 32768)
          nlinarith
      _ = 32768 := one_mul _
  constructor
  · exact maxAbs_lt_of_forall _ _ (by norm_num) hfl
  · rw [List.forall_iff_forall_mem]
    intro z hz
    rw [Chain.soft_clip_saturation, List.mem_map] at hz
    obtain ⟨y, hy, hyz⟩ := hz
    have h1 : |(z : ℝ)| < 32768 := by
      rw [← hyz]
      exact lt_of_le_of_lt (abs_truncZ_le y) (hfl y hy)
    have h2 : ((z.natAbs : ℤ) : ℝ) < 32768 := by
      rw [Int.cast_natAbs]
      exact_mod_cast h1
    have h3 : (z.natAbs : ℤ) < 32768 := by exact_mod_cast h2
    omega

/-- Claim C4 (code bug): length preservation fails on odd-length buffers.  On
the 3-sample buffer `[100, 200, 300]`, `high_pass_filter` returns only 2
samples, because `np.fft.irfft` without an explicit length argument
reconstructs `2 * (len(rfft) - 1) = N - 1` samples when `N` is odd. -/
theorem C4_odd_length_not_preserved :
    (Filters.high_pass_filter [100, 200, 300] 44100 80).length = 2 := by
  rw [Filters.high_pass_filter]
  simp only [List.length_map, length_irfft, List.length_range, length_rfft, toF,
    List.length_cons, List.length_nil]

/-- Claim C9: the backend de-esser is a no-op up to the FFT round trip: the
in-place reduction `fft[s_region][mask] *= reduction` multiplies a
fancy-indexing copy of the spectrum, so for every threshold and reduction the
output on an even-length int16 buffer is the input itself. -/
theorem C9_backend_deesser_noop (samples : List ℤ) (sr : ℕ)
    (threshold_db reduction_db : ℝ) (hev : 2 ∣ samples.length) :
    BackendDeesser.apply_deesser samples sr threshold_db reduction_db = samples := by
  rw [BackendDeesser.apply_deesser]
  rw [irfft_rfft (toF samples) (by simpa [toF] using hev)]
  rw [toF, List.map_map]
  have hcomp : (truncZ ∘ fun z : ℤ => (z : ℝ)) = id := funext fun z => truncZ_intCast z
  rw [hcomp, List.map_id]

/-- Witness for C9 at a concrete even-length buffer. -/
theorem C9_backend_deesser_noop_witness :
    2 ∣ ([5, -7] : List ℤ).length ∧
      BackendDeesser.apply_deesser [5, -7] 44100 (-20) (-6) = [5, -7] :=
  ⟨by simp, C9_backend_deesser_noop [5, -7] 44100 (-20) (-6) (by simp)⟩

/-- Claim C1 (code bug): the look-ahead limiter does not enforce its ceiling.
The gain decision for sample `i` only examines indices at or beyond
`i + lookahead - 1`, so a full-scale peak inside the first look-ahead window is
never attenuated: on the one-sample buffer `[32767]` (at 44.1 kHz, ceiling
-1 dB) the output is `[32767]`, which exceeds `ceiling_linear * peak`
(about 29204) by roughly 12% -- far beyond hard-clip rounding. -/
theorem C1_lookahead_limiter_blind_start :
    Limiter.apply_limiter [32767] 44100 (-1) = [32767] ∧
      dB2lin (-1) * 32767 < 32767 := by
  have hcl0 : (0 : ℝ) < dB2lin (-1) := dB2lin_pos _
  have hcl1 : dB2lin (-1) < 1 := dB2lin_lt_one (by norm_num)
  constructor
  · have hla : Limiter.lookaheadSamples 44100 = 66 := by norm_num [Limiter.lookaheadSamples]
    have hcur : ((1:ℝ) :: List.replicate 66 0).getD 66 0 = 0 := by
      rw [show (66:ℕ) = 65 + 1 from rfl, List.getD_cons_succ]
      simp [getD_replicate_self]
    have htp : Limiter.estimateTruePeak ((1:ℝ) :: List.replicate 66 0) 66 = 0 := by
      rw [Limiter.estimateTruePeak, if_neg (by norm_num)]
      rw [show ((1:ℝ) :: List.replicate 66 0).length = 67 by simp]
      rw [if_pos (by norm_num : (67:ℕ) - 1 ≤ 66)]
      norm_num [hcur]
    have hngt : ¬ (dB2lin (-1) < (0:ℝ)) := not_lt.mpr hcl0.le
    have hstep : Limiter.gainStep [1] ((1:ℝ) :: List.replicate 66 0) 66
        (dB2lin (-1)) (Real.exp (-1 / (44100 * (0.5 / 1000))))
        (Real.exp (-1 / (44100 * (30 / 1000)))) (Real.exp (-1 / (44100 * (10 / 1000))))
        1 0 = 1 := by
      rw [Limiter.gainStep]
      norm_num [htp, hcur, hngt]
    have hgh : Limiter.gainHistory [1] ((1:ℝ) :: List.replicate 66 0) 66
        (dB2lin (-1)) (Real.exp (-1 / (44100 * (0.5 / 1000))))
        (Real.exp (-1 / (44100 * (30 / 1000)))) (Real.exp (-1 / (44100 * (10 / 1000))))
        1 (List.range 1) = [1] := by
      rw [show List.range 1 = [0] from rfl]
      simp only [Limiter.gainHistory]
      rw [hstep]
    have hsm : smoothGain [1] (44100 / 1000) = [1] := by
      rw [smoothGain, if_pos (by norm_num)]
      rw [show ([1] : List ℝ).length = 1 from rfl, show List.range 1 = [0] from rfl]
      simp only [List.map_cons, List.map_nil]
      norm_num [pySlice, npMean]
    simp only [Limiter.apply_limiter, toF, List.map_cons, List.map_nil, List.length_cons,
      List.length_nil, zero_add, Nat.cast_ofNat]
    rw [if_neg (by norm_num)]
    have hmv : maxAbs [((32767 : ℤ) : ℝ)] = 32767 := by norm_num [maxAbs]
    rw [hmv, if_neg (by norm_num)]
    rw [show ((32767 : ℤ) : ℝ) / 32767 = 1 by norm_num, hla, List.singleton_append, hgh, hsm]
    have hz : List.zipWith (fun a b => a * b) ([1] : List ℝ) [1] = [1] := by norm_num
    rw [hz]
    have hsc : List.map (fun x => x * (32767:ℝ)) ([1] : List ℝ) = [32767] := by norm_num
    rw [hsc]
    have hclip : List.map (clipR (-32768) 32767) ([32767] : List ℝ) = [32767] := by
      simp only [List.map_cons, List.map_nil]
      rw [clipR_eq_self (by norm_num) (by norm_num)]
    rw [hclip]
    simp only [List.map_cons, List.map_nil]
    rw [show ((32767 : ℝ)) = ((32767 : ℤ) : ℝ) by norm_num, truncZ_intCast]
  · nlinarith

/- ### Zero-spectrum and ratio-one helper lemmas -/

theorem rfft_replicate_zero (n : ℕ) :
    rfft (List.replicate n 0) = List.replicate (n / 2 + 1) 0 := by
  rw [rfft, List.length_replicate]
  apply map_range_eq_replicate
  intro k _
  apply Finset.sum_eq_zero
  intro m _
  rw [getD_replicate_self]
  simp

theorem irfft_replicate_zero (L : ℕ) :
    irfft (List.replicate L 0) = List.replicate (2 * (L - 1)) 0 := by
  rw [irfft, List.length_replicate]
  apply map_range_eq_replicate
  intro j _
  have hz : ∀ k ∈ Finset.range L,
      hermWeight k L * (List.replicate L (0:ℂ)).getD k 0 * cexpTurn (2 * (L - 1)) ((j:ℤ) * k)
        = 0 := by
    intro k _
    rw [getD_replicate_self]
    ring
  rw [Finset.sum_congr rfl hz]
  simp

theorem zipWith_mul_replicate_one (l : List ℝ) :
    List.zipWith (fun a b => a * b) l (List.replicate l.length 1) = l := by
  induction l with
  | nil => rfl
  | cons a t ih =>
      rw [show (a :: t).length = t.length + 1 from rfl, List.replicate_succ]
      simp [ih]

theorem hanning_two : hanning 2 = [0, 0] := by
  rw [hanning, if_neg (by norm_num)]
  rw [show List.range 2 = [0, 1] from rfl]
  simp only [List.map_cons, List.map_nil, Nat.cast_ofNat, Nat.cast_one, Nat.cast_zero]
  norm_num [Real.cos_two_pi]

/-- With `ratio = 1` every branch of the soft-knee formula evaluates to gain 1
(the knee ratio collapses to 1 and both exponents to 0). -/
theorem gainLoop_ratio_one (ac rc ks ke tl : ℝ) :
    ∀ (rest : List ℝ) (env : ℝ),
      Compressor.gainLoop ac rc ks ke tl 1 env rest = List.replicate rest.length 1
  | [], _ => rfl
  | r :: t, env => by
      simp only [Compressor.gainLoop, List.length_cons]
      rw [List.replicate_succ]
      congr 1
      · split_ifs <;> norm_num
      · exact gainLoop_ratio_one ac rc ks ke tl t _

theorem gainCurve_ratio_one (samples : List ℤ) (sr : ℕ) (threshold attack release : ℝ) :
    Compressor.gainCurve samples sr threshold 1 attack release =
      List.replicate samples.length 1 := by
  rw [Compressor.gainCurve, gainLoop_ratio_one]
  congr 1
  rw [Compressor.rmsList, List.length_map, List.length_range]
  split_ifs <;> simp [toF]

theorem compressedSignal_ratio_one (samples : List ℤ) (sr : ℕ)
    (threshold attack release : ℝ) :
    Compressor.compressedSignal samples sr threshold 1 attack release = toF samples := by
  rw [Compressor.compressedSignal, gainCurve_ratio_one]
  have hlen : ∀ sn : List ℝ, sn.length = samples.length →
      List.zipWith (fun a b => a * b) sn (List.replicate samples.length 1) = sn := by
    intro sn h
    rw [← h]
    exact zipWith_mul_replicate_one sn
  split_ifs with hmv
  · rw [hlen _ (by simp [toF]), List.map_map]
    have hid : List.map ((fun x => x * maxAbs (toF samples)) ∘ fun x => x / maxAbs (toF samples))
        (toF samples) = List.map id (toF samples) := by
      apply List.map_congr_left
      intro x _
      simp only [Function.comp_apply, id]
      exact div_mul_cancel₀ x (ne_of_gt hmv)
    rw [hid, List.map_id]
  · exact hlen _ (by simp [toF])

/-- Claim C2 (amended): with `ratio = 1` the compression stage itself is exact
unity gain for every input, threshold, attack and release — the gain curve is
identically 1 and the `compressed` signal equals the input samples.  The
function's final output can still differ from the input because the harmonic
compensation EQ (Hann window, +1 dB bell at 3 kHz, peak renormalization) is
applied unconditionally afterwards. -/
theorem C2_ratio_one_unity_gain (samples : List ℤ) (sr : ℕ)
    (threshold attack release : ℝ) :
    Compressor.gainCurve samples sr threshold 1 attack release =
        List.replicate samples.length 1 ∧
      Compressor.compressedSignal samples sr threshold 1 attack release = toF samples :=
  ⟨gainCurve_ratio_one samples sr threshold attack release,
    compressedSignal_ratio_one samples sr threshold attack release⟩

/-- Claim C2 counterexample: `apply_compression` with `ratio = 1` is not a
sample-wise no-op.  On the buffer `[10000, 10000]` (any threshold -18 dB,
attack 10 ms, release 80 ms, 44.1 kHz) the output is `[0, 0]`: the
always-applied compensation stage multiplies by the length-2 Hann window,
which is identically zero. -/
theorem C2_ratio_one_not_noop :
    Compressor.apply_compression [10000, 10000] 44100 (-18) 1 10 80 = [0, 0] ∧
      ([0, 0] : List ℤ) ≠ [10000, 10000] := by
  constructor
  · have hcs : Compressor.compressedSignal [10000, 10000] 44100 (-18) 1 10 80 =
        [(10000 : ℝ), 10000] := by
      rw [compressedSignal_ratio_one]
      norm_num [toF]
    simp only [Compressor.apply_compression, hcs, List.length_cons, List.length_nil,
      zero_add]
    rw [show (1 + 1 : ℕ) = 2 from rfl, hanning_two]
    have hw : List.zipWith (fun a b => a * b) [(10000 : ℝ), 10000] [0, 0] = [0, 0] := by
      norm_num
    rw [hw, show ([0, 0] : List ℝ) = List.replicate 2 0 from rfl, rfft_replicate_zero]
    have hfft2 : (List.range (List.replicate (2 / 2 + 1) (0:ℂ)).length).map
        (fun (k : ℕ) => (List.replicate (2 / 2 + 1) (0:ℂ)).getD k 0 *
          ((bell 3000 1 2 (rfreq 2 44100 k) : ℝ) : ℂ)) = List.replicate 2 0 := by
      rw [List.length_replicate]
      apply map_range_eq_replicate
      intro k _
      rw [getD_replicate_self]
      ring
    rw [hfft2, irfft_replicate_zero]
    rw [show List.replicate (2 * (2 - 1)) (0:ℝ) = [0, 0] from rfl]
    norm_num [maxAbs, clipR, truncZ]
  · simp

/- ### Concrete values of the DFT kernel -/

theorem cexpTurn_zero (n : ℕ) : cexpTurn n 0 = 1 := by
  unfold cexpTurn
  norm_num

theorem cexpTurn_four_two : cexpTurn 4 2 = -1 := by
  rw [cexpTurn]
  rw [show 2 * (Real.pi : ℂ) * Complex.I * ((2:ℤ) : ℂ) / ((4:ℕ) : ℂ) =
      (Real.pi : ℂ) * Complex.I by push_cast; ring]
  exact Complex.exp_pi_mul_I

theorem cexpTurn_four_neg_two : cexpTurn 4 (-2) = -1 := by
  rw [show (-2 : ℤ) = 2 + ((4:ℕ) : ℤ) * (-1) by norm_num, cexpTurn_add,
    cexpTurn_n_mul 4 (by norm_num), mul_one, cexpTurn_four_two]

theorem cexpTurn_four_neg_six : cexpTurn 4 (-6) = -1 := by
  rw [show (-6 : ℤ) = 2 + ((4:ℕ) : ℤ) * (-2) by norm_num, cexpTurn_add,
    cexpTurn_n_mul 4 (by norm_num), mul_one, cexpTurn_four_two]

theorem eq_triple_getD (l : List ℂ) (h : l.length = 3) :
    l = [l.getD 0 0, l.getD 1 0, l.getD 2 0] := by
  cases l with
  | nil => simp at h
  | cons a t =>
      cases t with
      | nil => simp at h
      | cons b t2 =>
          cases t2 with
          | nil => simp at h
          | cons c t3 =>
              cases t3 with
              | nil => simp
              | cons e t4 => simp at h

/-- Claim C5: the high-pass stage zeroes every bin below the cutoff.  A pure
sine at 1 Hz sampled at 4 Hz (amplitude 10000) through a cutoff of 2 Hz gives
the all-zero buffer (RMS energy attenuated by far more than 20 dB: the output
energy times 100 is still below the input energy), while a pure sine at 4 Hz
sampled at 16 Hz, whose frequency exceeds twice the 1 Hz cutoff, passes
through bit-exactly (0 dB change, less than 1 dB). -/
theorem C5_high_pass_sine_response :
    (Filters.high_pass_filter [0, 10000, 0, -10000] 4 2 = [0, 0, 0, 0] ∧
      100 * sumSqZ (Filters.high_pass_filter [0, 10000, 0, -10000] 4 2) <
        sumSqZ [0, 10000, 0, -10000]) ∧
      Filters.high_pass_filter [0, 10000, 0, -10000] 16 1 = [0, 10000, 0, -10000] := by
  have hs : toF [0, 10000, 0, -10000] = [0, 10000, 0, -10000] := by norm_num [toF]
  have hslen : ([0, 10000, 0, -10000] : List ℝ).length = 4 := rfl
  have hlen3 : (rfft ([0, 10000, 0, -10000] : List ℝ)).length = 3 := by
    rw [length_rfft, hslen]
  have hF0 : (rfft ([0, 10000, 0, -10000] : List ℝ)).getD 0 0 = 0 := by
    rw [getD_rfft _ 0 (by rw [hslen]; norm_num), hslen]
    rw [Finset.sum_range_succ, Finset.sum_range_succ, Finset.sum_range_succ,
      Finset.sum_range_succ, Finset.sum_range_zero]
    norm_num [cexpTurn_zero]
  have hF2 : (rfft ([0, 10000, 0, -10000] : List ℝ)).getD 2 0 = 0 := by
    rw [getD_rfft _ 2 (by rw [hslen]; norm_num), hslen]
    rw [Finset.sum_range_succ, Finset.sum_range_succ, Finset.sum_range_succ,
      Finset.sum_range_succ, Finset.sum_range_zero]
    norm_num [cexpTurn_four_neg_two, cexpTurn_four_neg_six]
  have hblocked : Filters.high_pass_filter [0, 10000, 0, -10000] 4 2 = [0, 0, 0, 0] := by
    simp only [Filters.high_pass_filter, hs]
    rw [hlen3, show List.range 3 = [0, 1, 2] from rfl]
    simp only [List.map_cons, List.map_nil]
    rw [if_pos (by rw [hslen]; norm_num [rfreq]), if_pos (by rw [hslen]; norm_num [rfreq]),
      if_neg (by rw [hslen]; norm_num [rfreq])]
    rw [hF2, show ([(0:ℂ), 0, 0]) = List.replicate 3 0 from rfl, irfft_replicate_zero]
    rw [show List.replicate (2 * (3 - 1)) (0:ℝ) = [0, 0, 0, 0] from rfl]
    norm_num [truncZ]
  refine ⟨⟨hblocked, ?_⟩, ?_⟩
  · rw [hblocked]
    norm_num [sumSqZ]
  · simp only [Filters.high_pass_filter, hs]
    have hfft2 : (List.range (rfft ([0, 10000, 0, -10000] : List ℝ)).length).map
        (fun (k : ℕ) =>
          if rfreq ([0, 10000, 0, -10000] : List ℝ).length 16 k < ((1:ℕ) : ℝ) then 0
          else (rfft ([0, 10000, 0, -10000] : List ℝ)).getD k 0) =
        rfft ([0, 10000, 0, -10000] : List ℝ) := by
      rw [hlen3, show List.range 3 = [0, 1, 2] from rfl]
      simp only [List.map_cons, List.map_nil]
      rw [if_pos (by rw [hslen]; norm_num [rfreq]), if_neg (by rw [hslen]; norm_num [rfreq]),
        if_neg (by rw [hslen]; norm_num [rfreq])]
      conv_rhs => rw [eq_triple_getD _ hlen3]
      rw [hF0]
    rw [hfft2, irfft_rfft _ (by rw [hslen]; norm_num)]
    norm_num [truncZ]
    rw [show (-10000 : ℝ) = ((-10000 : ℤ) : ℝ) by norm_num, Int.ceil_intCast]

/- ### Peak lemmas and the EQ peak renormalization (claim C8) -/

theorem abs_le_maxAbs_of_mem {x : ℝ} : ∀ {l : List ℝ}, x ∈ l → |x| ≤ maxAbs l := by
  intro l
  induction l with
  | nil => intro h; simp at h
  | cons a t ih =>
      intro h
      simp only [maxAbs, List.map_cons, List.foldr_cons]
      rcases List.mem_cons.mp h with h1 | h1
      · rw [h1]; exact le_max_left _ _
      · exact le_trans (ih h1) (le_max_right _ _)

theorem maxAbs_map_mul (l : List ℝ) (c : ℝ) (hc : 0 ≤ c) :
    maxAbs (l.map fun x => x * c) = maxAbs l * c := by
  induction l with
  | nil => simp [maxAbs]
  | cons a t ih =>
      simp only [maxAbs, List.map_cons, List.foldr_cons] at *
      rw [abs_mul, abs_of_nonneg hc, ih, max_mul_of_nonneg _ _ hc]

theorem hanning_length (M : ℕ) : (hanning M).length = M := by
  rw [hanning]
  split
  · next h => rw [h]; rfl
  · simp

theorem eqFiltered_length (samples : List ℤ) (sr : ℕ) :
    (EqCurve.eqFiltered samples sr).length = 2 * (samples.length / 2) := by
  rw [EqCurve.eqFiltered]
  rw [length_irfft, List.length_map, List.length_range, length_rfft, List.length_zipWith,
    hanning_length, toF, List.length_map, Nat.min_self]
  omega

/-- Claim C8 (amended): whenever the filtered (post-bell, pre-normalization)
signal of src/eq.py has a nonzero peak, `apply_eq` rescales it so the float
output peak equals the input peak exactly, and every int16 output sample is
bounded by the input peak (int16 truncation can only shrink magnitudes).  The
backend three-band `apply_eq` performs no such renormalization, and when the
filtered signal is identically zero the renormalization is skipped (see the
counterexample). -/
theorem C8_eq_peak_renormalization (samples : List ℤ) (sr : ℕ)
    (hfp : 0 < maxAbs (EqCurve.eqFiltered samples sr)) :
    maxAbs (EqCurve.eqNormalized samples sr) = maxAbs (toF samples) ∧
      (EqCurve.apply_eq samples sr).Forall
        fun (z : ℤ) => |(z : ℝ)| ≤ maxAbs (toF samples) := by
  have hlenpos : 0 < samples.length := by
    by_contra hcon
    push_neg at hcon
    have h0 : samples.length = 0 := by omega
    have hf0 : (EqCurve.eqFiltered samples sr).length = 0 := by
      rw [eqFiltered_length, h0]
    rw [List.length_eq_zero.mp hf0] at hfp
    simp [maxAbs] at hfp
  have hflenpos : 0 < (EqCurve.eqFiltered samples sr).length := by
    by_contra hcon
    push_neg at hcon
    have h0 : (EqCurve.eqFiltered samples sr).length = 0 := by omega
    rw [List.length_eq_zero.mp h0] at hfp
    simp [maxAbs] at hfp
  have hnorm : EqCurve.eqNormalized samples sr =
      (EqCurve.eqFiltered samples sr).map
        (fun x => x * (maxAbs (toF samples) / maxAbs (EqCurve.eqFiltered samples sr))) := by
    rw [EqCurve.eqNormalized]
    rw [if_pos (show 0 < (toF samples).length by simpa [toF] using hlenpos)]
    rw [if_pos hflenpos]
    rw [if_pos hfp]
  have hmax : maxAbs (EqCurve.eqNormalized samples sr) = maxAbs (toF samples) := by
    rw [hnorm, maxAbs_map_mul _ _ (div_nonneg (maxAbs_nonneg _) (maxAbs_nonneg _))]
    rw [mul_comm, div_mul_cancel₀ _ (ne_of_gt hfp)]
  refine ⟨hmax, ?_⟩
  rw [List.forall_iff_forall_mem]
  intro z hz
  rw [EqCurve.apply_eq, List.mem_map] at hz
  obtain ⟨y, hy, hyz⟩ := hz
  calc |(z : ℝ)| = |(truncZ y : ℝ)| := by rw [hyz]
    _ ≤ |y| := abs_truncZ_le y
    _ ≤ maxAbs (EqCurve.eqNormalized samples sr) := abs_le_maxAbs_of_mem hy
    _ = maxAbs (toF samples) := hmax

/-- Claim C8 counterexample: on the non-silent buffer `[10000, 10000]` the
length-2 Hann window annihilates the signal, the renormalization is skipped
(filtered peak is 0), and `apply_eq` returns `[0, 0]`: the output peak is 0,
not the input peak 10000. -/
theorem C8_eq_peak_counterexample :
    EqCurve.apply_eq [10000, 10000] 44100 = [0, 0] ∧
      maxAbs (toF ([10000, 10000] : List ℤ)) ≠ 0 := by
  have hfil : EqCurve.eqFiltered [10000, 10000] 44100 = [0, 0] := by
    simp only [EqCurve.eqFiltered, toF, List.map_cons, List.map_nil, List.length_cons,
      List.length_nil, zero_add]
    rw [show (1 + 1 : ℕ) = 2 from rfl, hanning_two]
    have hw : List.zipWith (fun a b => a * b) [((10000:ℤ):ℝ), ((10000:ℤ):ℝ)] [0, 0]
        = [0, 0] := by norm_num
    rw [hw, show ([0, 0] : List ℝ) = List.replicate 2 0 from rfl, rfft_replicate_zero]
    have hfft2 : (List.range (List.replicate (2 / 2 + 1) (0:ℂ)).length).map
        (fun (k : ℕ) => (List.replicate (2 / 2 + 1) (0:ℂ)).getD k 0 *
          ((EqCurve.gainCurve (rfreq 2 44100 k) : ℝ) : ℂ)) = List.replicate 2 0 := by
      rw [List.length_replicate]
      apply map_range_eq_replicate
      intro k _
      rw [getD_replicate_self]
      ring
    rw [hfft2, irfft_replicate_zero]
  constructor
  · rw [EqCurve.apply_eq, EqCurve.eqNormalized, hfil]
    rw [if_pos (show 0 < (toF ([10000, 10000] : List ℤ)).length by simp [toF])]
    rw [if_pos (show 0 < ([(0:ℝ), 0]).length by norm_num)]
    rw [if_neg (show ¬ (maxAbs [(0:ℝ), 0] > 0) by norm_num [maxAbs])]
    norm_num [truncZ]
  · norm_num [toF, maxAbs]

theorem cexpTurn_four_one : cexpTurn 4 1 = Complex.I := by
  rw [cexpTurn]
  rw [show 2 * (Real.pi : ℂ) * Complex.I * ((1:ℤ) : ℂ) / ((4:ℕ) : ℂ) =
      ((Real.pi / 2 : ℝ) : ℂ) * Complex.I by push_cast; ring]
  rw [Complex.exp_mul_I, ← Complex.ofReal_cos, ← Complex.ofReal_sin]
  rw [Real.cos_pi_div_two, Real.sin_pi_div_two]
  simp

theorem cexpTurn_four_neg_one : cexpTurn 4 (-1) = -Complex.I := by
  rw [← conj_cexpTurn, cexpTurn_four_one, Complex.conj_I]

theorem hanning_four : hanning 4 = [0, 0.75, 0.75, 0] := by
  rw [hanning, if_neg (by norm_num)]
  rw [show List.range 4 = [0, 1, 2, 3] from rfl]
  simp only [List.map_cons, List.map_nil, Nat.cast_ofNat, Nat.cast_one, Nat.cast_zero]
  have hc3 : Real.cos (2 * Real.pi * 3 / ((4:ℝ) - 1)) = 1 := by
    rw [show 2 * Real.pi * 3 / ((4:ℝ) - 1) = 2 * Real.pi by ring]
    exact Real.cos_two_pi
  norm_num [hc3]
  constructor
  · have hc1 : Real.cos (2 * Real.pi / 3) = -(1/2) := by
      rw [show 2 * Real.pi / 3 = Real.pi - Real.pi / 3 by ring, Real.cos_pi_sub,
        Real.cos_pi_div_three]
    rw [hc1]
    norm_num
  · have hc2 : Real.cos (2 * Real.pi * 2 / 3) = -(1/2) := by
      rw [show 2 * Real.pi * 2 / 3 = Real.pi - -(Real.pi / 3) by ring, Real.cos_pi_sub,
        Real.cos_neg, Real.cos_pi_div_three]
    rw [hc2]
    norm_num

theorem getD_irfft (c : List ℂ) (j : ℕ) (h : j < 2 * (c.length - 1)) :
    (irfft c).getD j 0 =
      (∑ k ∈ Finset.range c.length,
          hermWeight k c.length * c.getD k 0 *
            cexpTurn (2 * (c.length - 1)) ((j : ℤ) * k)).re
        / ((2 * (c.length - 1) : ℕ) : ℝ) := by
  unfold irfft
  exact getD_map_range _ _ _ _ h

/-- Witness for C8: the impulse buffer `[0, 10000, 0, 0]` has a filtered
signal with strictly positive peak (its second sample is
`7500 * (G0 + 2*G1 + G2) / 4` with all bell gains positive), so the
renormalized output peak equals the input peak. -/
theorem C8_eq_peak_renormalization_witness :
    0 < maxAbs (EqCurve.eqFiltered [0, 10000, 0, 0] 44100) ∧
      maxAbs (EqCurve.eqNormalized [0, 10000, 0, 0] 44100) =
        maxAbs (toF ([0, 10000, 0, 0] : List ℤ)) := by
  have hfp : 0 < maxAbs (EqCurve.eqFiltered [0, 10000, 0, 0] 44100) := by
    set G0 := EqCurve.gainCurve (rfreq 4 44100 0) with hG0
    set G1 := EqCurve.gainCurve (rfreq 4 44100 1) with hG1
    set G2 := EqCurve.gainCurve (rfreq 4 44100 2) with hG2
    have hG0p : 0 < G0 := EqCurve.gainCurve_pos _
    have hG1p : 0 < G1 := EqCurve.gainCurve_pos _
    have hG2p : 0 < G2 := EqCurve.gainCurve_pos _
    have hwin : EqCurve.eqFiltered [0, 10000, 0, 0] 44100 =
        irfft [((7500 : ℝ) : ℂ) * (G0 : ℂ), ((7500 : ℝ) : ℂ) * (-Complex.I) * (G1 : ℂ),
          ((-7500 : ℝ) : ℂ) * (G2 : ℂ)] := by
      simp only [EqCurve.eqFiltered, toF, List.map_cons, List.map_nil, List.length_cons,
        List.length_nil, zero_add]
      rw [show (1 + 1 + 1 + 1 : ℕ) = 4 from rfl, hanning_four]
      have hw : List.zipWith (fun a b => a * b)
          [((0:ℤ):ℝ), ((10000:ℤ):ℝ), ((0:ℤ):ℝ), ((0:ℤ):ℝ)] [0, 0.75, 0.75, 0]
          = [0, 7500, 0, 0] := by norm_num
      rw [hw]
      have hF0 : (rfft ([0, 7500, 0, 0] : List ℝ)).getD 0 0 = ((7500 : ℝ) : ℂ) := by
        rw [getD_rfft _ 0 (by norm_num)]
        rw [show ([0, 7500, 0, 0] : List ℝ).length = 4 from rfl]
        rw [Finset.sum_range_succ, Finset.sum_range_succ, Finset.sum_range_succ,
          Finset.sum_range_succ, Finset.sum_range_zero]
        norm_num [cexpTurn_zero]
      have hF1 : (rfft ([0, 7500, 0, 0] : List ℝ)).getD 1 0 =
          ((7500 : ℝ) : ℂ) * (-Complex.I) := by
        rw [getD_rfft _ 1 (by norm_num)]
        rw [show ([0, 7500, 0, 0] : List ℝ).length = 4 from rfl]
        rw [Finset.sum_range_succ, Finset.sum_range_succ, Finset.sum_range_succ,
          Finset.sum_range_succ, Finset.sum_range_zero]
        norm_num [cexpTurn_four_neg_one]
      have hF2 : (rfft ([0, 7500, 0, 0] : List ℝ)).getD 2 0 = ((-7500 : ℝ) : ℂ) := by
        rw [getD_rfft _ 2 (by norm_num)]
        rw [show ([0, 7500, 0, 0] : List ℝ).length = 4 from rfl]
        rw [Finset.sum_range_succ, Finset.sum_range_succ, Finset.sum_range_succ,
          Finset.sum_range_succ, Finset.sum_range_zero]
        norm_num [cexpTurn_four_neg_two]
      have hlen3 : (rfft ([0, 7500, 0, 0] : List ℝ)).length = 3 := by
        rw [length_rfft]; rfl
      rw [hlen3, show List.range 3 = [0, 1, 2] from rfl]
      simp only [List.map_cons, List.map_nil]
      rw [hF0, hF1, hF2, ← hG0, ← hG1, ← hG2]
    have hval : (irfft [((7500 : ℝ) : ℂ) * (G0 : ℂ),
        ((7500 : ℝ) : ℂ) * (-Complex.I) * (G1 : ℂ),
        ((-7500 : ℝ) : ℂ) * (G2 : ℂ)]).getD 1 0 =
        (7500 * G0 + 15000 * G1 + 7500 * G2) / 4 := by
      rw [getD_irfft _ 1 (by norm_num)]
      rw [show ([((7500 : ℝ) : ℂ) * (G0 : ℂ), ((7500 : ℝ) : ℂ) * (-Complex.I) * (G1 : ℂ),
        ((-7500 : ℝ) : ℂ) * (G2 : ℂ)]).length = 3 from rfl]
      rw [Finset.sum_range_succ, Finset.sum_range_succ, Finset.sum_range_succ,
        Finset.sum_range_zero]
      simp only [Nat.cast_ofNat, Nat.cast_one, Nat.cast_zero, one_mul, mul_zero, mul_one]
      rw [show (2 * (3 - 1) : ℕ) = 4 from rfl]
      rw [cexpTurn_zero, cexpTurn_four_one, cexpTurn_four_two]
      rw [show hermWeight 0 3 = 1 by norm_num [hermWeight],
        show hermWeight 1 3 = 2 by norm_num [hermWeight],
        show hermWeight 2 3 = 1 by norm_num [hermWeight]]
      rw [show ([((7500 : ℝ) : ℂ) * (G0 : ℂ), ((7500 : ℝ) : ℂ) * (-Complex.I) * (G1 : ℂ),
        ((-7500 : ℝ) : ℂ) * (G2 : ℂ)]).getD 0 0 = ((7500 : ℝ) : ℂ) * (G0 : ℂ) from rfl]
      rw [show ([((7500 : ℝ) : ℂ) * (G0 : ℂ), ((7500 : ℝ) : ℂ) * (-Complex.I) * (G1 : ℂ),
        ((-7500 : ℝ) : ℂ) * (G2 : ℂ)]).getD 1 0 =
          ((7500 : ℝ) : ℂ) * (-Complex.I) * (G1 : ℂ) from rfl]
      rw [show ([((7500 : ℝ) : ℂ) * (G0 : ℂ), ((7500 : ℝ) : ℂ) * (-Complex.I) * (G1 : ℂ),
        ((-7500 : ℝ) : ℂ) * (G2 : ℂ)]).getD 2 0 = ((-7500 : ℝ) : ℂ) * (G2 : ℂ) from rfl]
      simp only [Complex.add_re, Complex.mul_re, Complex.mul_im, Complex.add_im,
        Complex.ofReal_re, Complex.ofReal_im, Complex.I_re, Complex.I_im, Complex.neg_re,
        Complex.neg_im, Complex.zero_re, Complex.zero_im, Complex.one_re, Complex.one_im,
        Complex.re_ofNat, Complex.im_ofNat]
      push_cast
      ring
    have hpos : 0 < (7500 * G0 + 15000 * G1 + 7500 * G2) / 4 := by positivity
    calc (0:ℝ) < (7500 * G0 + 15000 * G1 + 7500 * G2) / 4 := hpos
      _ = |(irfft [((7500 : ℝ) : ℂ) * (G0 : ℂ), ((7500 : ℝ) : ℂ) * (-Complex.I) * (G1 : ℂ),
            ((-7500 : ℝ) : ℂ) * (G2 : ℂ)]).getD 1 0| := by rw [hval, abs_of_pos hpos]
      _ ≤ maxAbs (irfft [((7500 : ℝ) : ℂ) * (G0 : ℂ),
            ((7500 : ℝ) : ℂ) * (-Complex.I) * (G1 : ℂ),
            ((-7500 : ℝ) : ℂ) * (G2 : ℂ)]) := abs_getD_le_maxAbs _ _
      _ = maxAbs (EqCurve.eqFiltered [0, 10000, 0, 0] 44100) := by rw [hwin]
  exact ⟨hfp, (C8_eq_peak_renormalization [0, 10000, 0, 0] 44100 hfp).1⟩

/- ### Silence lemmas (claim C6) -/

theorem truncZ_zero : truncZ 0 = 0 := by norm_num [truncZ]

theorem clipR_zero : clipR (-32768) 32767 0 = 0 := clipR_eq_self (by norm_num) (by norm_num)

theorem maxAbs_replicate_zero (n : ℕ) : maxAbs (List.replicate n (0:ℝ)) = 0 := by
  induction n with
  | zero => rfl
  | succ m ih =>
      rw [List.replicate_succ]
      simp only [maxAbs, List.map_cons, List.foldr_cons] at ih ⊢
      rw [ih, abs_zero, max_self]

theorem toF_replicate_zero (n : ℕ) : toF (List.replicate n 0) = List.replicate n 0 := by
  simp [toF, List.map_replicate]

theorem pySlice_replicate_zero (n a b : ℕ) :
    pySlice (List.replicate n (0:ℝ)) a b = List.replicate (min (b - a) (n - a)) 0 := by
  rw [pySlice, List.drop_replicate, List.take_replicate]

theorem zipWith_mul_replicate_zero_left (n : ℕ) :
    ∀ l : List ℝ, List.zipWith (fun a b => a * b) (List.replicate n 0) l =
      List.replicate (min n l.length) 0 := by
  induction n with
  | zero => intro l; simp
  | succ m ih =>
      intro l
      cases l with
      | nil => simp
      | cons b t =>
          rw [List.replicate_succ, List.zipWith_cons_cons, ih t, zero_mul]
          rw [show (b :: t).length = t.length + 1 from rfl, Nat.succ_min_succ,
            List.replicate_succ]

theorem rmsAt_replicate_zero (n w i : ℕ) :
    Compressor.rmsAt (List.replicate n 0) w i = 0 := by
  rw [Compressor.rmsAt, List.length_replicate, pySlice_replicate_zero, List.map_replicate]
  norm_num [npMean, List.sum_replicate]

/-- Over an all-zero RMS stream the envelope stays 0, which is below the knee
start, so every gain is 1. -/
theorem gainLoop_zero (ac rc ks ke tl ratio : ℝ) (hks : 0 < ks) :
    ∀ m : ℕ, Compressor.gainLoop ac rc ks ke tl ratio 0 (List.replicate m 0) =
      List.replicate m 1 := by
  intro m
  induction m with
  | zero => rfl
  | succ k ih =>
      rw [List.replicate_succ, List.replicate_succ]
      show Compressor.gainLoop ac rc ks ke tl ratio 0 (0 :: List.replicate k 0) =
        1 :: List.replicate k 1
      rw [Compressor.gainLoop]
      rw [if_neg (lt_irrefl (0:ℝ))]
      rw [show rc * 0 + (1 - rc) * 0 = (0:ℝ) by ring]
      rw [if_pos hks, ih]

/-- Claim C6 counterexample: the all-zero buffer of (odd) length 3 is not
returned as an all-zero buffer of length 3 by the high-pass stage — the output
has 2 samples — and the stage has no `peak == 0` short-circuit. -/
theorem C6_silence_counterexample :
    Filters.high_pass_filter (List.replicate 3 0) 44100 80 ≠ List.replicate 3 0 ∧
      (Filters.high_pass_filter (List.replicate 3 0) 44100 80).length = 2 := by
  have hlen : (Filters.high_pass_filter (List.replicate 3 0) 44100 80).length = 2 := by
    rw [Filters.high_pass_filter]
    simp only [List.length_map, length_irfft, List.length_range, length_rfft, toF,
      List.length_replicate]
  refine ⟨?_, hlen⟩
  intro h
  rw [h, List.length_replicate] at hlen
  exact absurd hlen (by norm_num)

/-- Claim C6 (amended): every stage maps an all-zero buffer to an all-zero
buffer with no division by zero.  The limiter and de-esser stages detect
`peak == 0` (or zero length) and return the input unchanged; the FFT-based
stages have no such check but still produce all zeros, of the same length when
the length is even (for odd length they drop a sample, see the counterexample;
numpy additionally raises on length 0, and the compressor RMS window is empty
below 200 Hz sample rate, whence the hypotheses). -/
theorem C6_silence_identity (n sr cutoff fs fe : ℕ)
    (lg mg hg θdb rdb cdb ratio atk rel drive : ℝ)
    (hn : 0 < n) (hev : 2 ∣ n) (hsr : 200 ≤ sr) :
    Filters.high_pass_filter (List.replicate n 0) sr cutoff = List.replicate n 0 ∧
    BackendEq.apply_eq (List.replicate n 0) sr lg mg hg = List.replicate n 0 ∧
    BackendDeesser.apply_deesser (List.replicate n 0) sr θdb rdb = List.replicate n 0 ∧
    BackendLimiter.apply_limiter (List.replicate n 0) cdb = List.replicate n 0 ∧
    Compressor.apply_compression (List.replicate n 0) sr θdb ratio atk rel =
      List.replicate n 0 ∧
    EqCurve.apply_eq (List.replicate n 0) sr = List.replicate n 0 ∧
    Deesser.apply_deesser (List.replicate n 0) sr fs fe θdb = List.replicate n 0 ∧
    Limiter.apply_limiter (List.replicate n 0) sr cdb = List.replicate n 0 ∧
    Chain.soft_clip_saturation (List.replicate n 0) drive = List.replicate n 0 := by
  have hhalf : 2 * (n / 2 + 1 - 1) = n := by omega
  have htrunc : ∀ m : ℕ, (List.replicate m (0:ℝ)).map truncZ = List.replicate m 0 := by
    intro m
    rw [List.map_replicate, truncZ_zero]
  have hclip : ∀ m : ℕ, (List.replicate m (0:ℝ)).map (clipR (-32768) 32767) =
      List.replicate m 0 := by
    intro m
    rw [List.map_replicate, clipR_zero]
  refine ⟨?_, ?_, ?_, ?_, ?_, ?_, ?_, ?_, ?_⟩
  · -- high-pass filter
    rw [Filters.high_pass_filter, toF_replicate_zero, rfft_replicate_zero]
    simp only [List.length_replicate]
    have hmask : (List.range (n / 2 + 1)).map (fun (k : ℕ) =>
        if rfreq n sr k < (cutoff : ℝ) then 0
        else (List.replicate (n / 2 + 1) (0:ℂ)).getD k 0) =
        List.replicate (n / 2 + 1) 0 := by
      apply map_range_eq_replicate
      intro k _
      rw [getD_replicate_self]
      split_ifs <;> rfl
    rw [hmask, irfft_replicate_zero, hhalf, htrunc]
  · -- backend three-band EQ
    rw [BackendEq.apply_eq, toF_replicate_zero, rfft_replicate_zero]
    simp only [List.length_replicate]
    have hmask : (List.range (n / 2 + 1)).map (fun (k : ℕ) =>
        if rfreq n sr k < 250 then
          dB2lin lg * (List.replicate (n / 2 + 1) (0:ℂ)).getD k 0
        else if rfreq n sr k < 4000 then
          dB2lin mg * (List.replicate (n / 2 + 1) (0:ℂ)).getD k 0
        else dB2lin hg * (List.replicate (n / 2 + 1) (0:ℂ)).getD k 0) =
        List.replicate (n / 2 + 1) 0 := by
      apply map_range_eq_replicate
      intro k _
      rw [getD_replicate_self]
      split_ifs <;> ring
    rw [hmask, irfft_replicate_zero, hhalf, htrunc]
  · -- backend de-esser (round trip of the zero spectrum)
    rw [BackendDeesser.apply_deesser, toF_replicate_zero, rfft_replicate_zero,
      irfft_replicate_zero, hhalf, htrunc]
  · -- backend limiter: peak == 0 short-circuit
    rw [BackendLimiter.apply_limiter, toF_replicate_zero, maxAbs_replicate_zero]
    rw [if_pos rfl]
  · -- compressor
    have hrms : Compressor.rmsList (List.replicate n 0) (Compressor.rmsWindowSize sr) =
        List.replicate n 0 := by
      rw [Compressor.rmsList, List.length_replicate]
      apply map_range_eq_replicate
      intro i _
      exact rmsAt_replicate_zero n _ i
    have hgain : Compressor.gainCurve (List.replicate n 0) sr θdb ratio atk rel =
        List.replicate n 1 := by
      simp only [Compressor.gainCurve, toF_replicate_zero, maxAbs_replicate_zero]
      rw [if_neg (lt_irrefl (0:ℝ)), hrms]
      exact gainLoop_zero _ _ _ _ _ _ (div_pos (dB2lin_pos _) (dB2lin_pos _)) n
    have h1 : Compressor.compressedSignal (List.replicate n 0) sr θdb ratio atk rel =
        List.replicate n 0 := by
      simp only [Compressor.compressedSignal, toF_replicate_zero, maxAbs_replicate_zero,
        hgain]
      rw [if_neg (lt_irrefl (0:ℝ))]
      rw [if_neg (lt_irrefl (0:ℝ))]
      rw [zipWith_mul_replicate_zero_left, List.length_replicate, Nat.min_self]
    simp only [Compressor.apply_compression, h1, List.length_replicate]
    rw [zipWith_mul_replicate_zero_left, hanning_length, Nat.min_self]
    rw [rfft_replicate_zero, List.length_replicate]
    have hfft2 : (List.range (n / 2 + 1)).map (fun (k : ℕ) =>
        (List.replicate (n / 2 + 1) (0:ℂ)).getD k 0 *
          ((bell 3000 1 2 (rfreq n sr k) : ℝ) : ℂ)) = List.replicate (n / 2 + 1) 0 := by
      apply map_range_eq_replicate
      intro k _
      rw [getD_replicate_self, zero_mul]
    rw [hfft2, irfft_replicate_zero, hhalf]
    simp only [List.length_replicate]
    rw [if_pos hn, maxAbs_replicate_zero, if_neg (lt_irrefl (0:ℝ))]
    rw [hclip, htrunc]
  · -- src five-bell EQ
    have hfil : EqCurve.eqFiltered (List.replicate n 0) sr = List.replicate n 0 := by
      simp only [EqCurve.eqFiltered, toF_replicate_zero, List.length_replicate]
      rw [zipWith_mul_replicate_zero_left, hanning_length, Nat.min_self]
      rw [rfft_replicate_zero, List.length_replicate]
      have hfft2 : (List.range (n / 2 + 1)).map (fun (k : ℕ) =>
          (List.replicate (n / 2 + 1) (0:ℂ)).getD k 0 *
            ((EqCurve.gainCurve (rfreq n sr k) : ℝ) : ℂ)) = List.replicate (n / 2 + 1) 0 := by
        apply map_range_eq_replicate
        intro k _
        rw [getD_replicate_self, zero_mul]
      rw [hfft2, irfft_replicate_zero, hhalf]
    simp only [EqCurve.apply_eq, EqCurve.eqNormalized, toF_replicate_zero, hfil,
      List.length_replicate]
    rw [if_pos hn, maxAbs_replicate_zero, if_neg (lt_irrefl (0:ℝ))]
    exact htrunc n
  · -- src de-esser: peak == 0 short-circuit
    simp only [Deesser.apply_deesser, toF_replicate_zero, maxAbs_replicate_zero]
    rw [if_pos trivial]
  · -- src look-ahead limiter: peak == 0 short-circuit
    simp only [Limiter.apply_limiter, toF_replicate_zero, maxAbs_replicate_zero,
      List.length_replicate]
    rw [if_pos trivial, ite_self]
  · -- soft-clip saturation
    simp only [Chain.soft_clip_saturation, Chain.soft_clip_float, toF_replicate_zero,
      List.map_replicate]
    rw [show Real.tanh (0 * drive / 32768) * 32768 = 0 by
      rw [zero_mul, zero_div, Real.tanh_zero, zero_mul]]
    rw [truncZ_zero]

/-- Witness for C6: the silence identity instantiated at a 4-sample zero buffer,
44100 Hz, 100 Hz cutoff, 6-9 kHz de-esser band and representative gain
parameters. -/
theorem C6_silence_identity_witness :
    0 < 4 ∧ 2 ∣ 4 ∧ 200 ≤ 44100 ∧
    (Filters.high_pass_filter (List.replicate 4 0) 44100 100 = List.replicate 4 0 ∧
     BackendEq.apply_eq (List.replicate 4 0) 44100 3 (-2) 4 = List.replicate 4 0 ∧
     BackendDeesser.apply_deesser (List.replicate 4 0) 44100 (-18) (-5) =
       List.replicate 4 0 ∧
     BackendLimiter.apply_limiter (List.replicate 4 0) (-1) = List.replicate 4 0 ∧
     Compressor.apply_compression (List.replicate 4 0) 44100 (-18) 3 10 80 =
       List.replicate 4 0 ∧
     EqCurve.apply_eq (List.replicate 4 0) 44100 = List.replicate 4 0 ∧
     Deesser.apply_deesser (List.replicate 4 0) 44100 6000 9000 (-18) =
       List.replicate 4 0 ∧
     Limiter.apply_limiter (List.replicate 4 0) 44100 (-1) = List.replicate 4 0 ∧
     Chain.soft_clip_saturation (List.replicate 4 0) 1.5 = List.replicate 4 0) :=
  ⟨by norm_num, by norm_num, by norm_num,
    C6_silence_identity 4 44100 100 6000 9000 3 (-2) 4 (-18) (-5) (-1) 3 10 80 1.5
      (by norm_num) (by norm_num) (by norm_num)⟩

/- ### De-esser detector lemmas (claim C7) -/

theorem cexpTurn_two_one : cexpTurn 2 1 = -1 := by
  rw [cexpTurn]
  rw [show 2 * (Real.pi : ℂ) * Complex.I * ((1:ℤ) : ℂ) / ((2:ℕ) : ℂ) =
      (Real.pi : ℂ) * Complex.I by push_cast; ring]
  exact Complex.exp_pi_mul_I

theorem cexpTurn_two_neg_one : cexpTurn 2 (-1) = -1 := by
  rw [show (-1 : ℤ) = 1 + ((2:ℕ) : ℤ) * (-1) by norm_num, cexpTurn_add,
    cexpTurn_n_mul 2 (by norm_num), mul_one, cexpTurn_two_one]

theorem eq_pair_getD (l : List ℂ) (h : l.length = 2) :
    l = [l.getD 0 0, l.getD 1 0] := by
  cases l with
  | nil => simp at h
  | cons a t =>
      cases t with
      | nil => simp at h
      | cons b t2 =>
          cases t2 with
          | nil => simp
          | cons c t3 => simp at h

theorem npMean_replicate_one (m : ℕ) (h : 0 < m) :
    npMean (List.replicate m 1) = 1 := by
  rw [npMean, List.sum_replicate, List.length_replicate, nsmul_eq_mul, mul_one]
  exact div_self (by exact_mod_cast h.ne')

theorem pySlice_replicate (m : ℕ) (x : ℝ) (a b : ℕ) :
    pySlice (List.replicate m x) a b = List.replicate (min (b - a) (m - a)) x := by
  rw [pySlice, List.drop_replicate, List.take_replicate]

theorem smoothGain_replicate_one (n sw : ℕ) :
    smoothGain (List.replicate n 1) sw = List.replicate n 1 := by
  rw [smoothGain]
  split
  · next hsw =>
      rw [List.length_replicate]
      apply map_range_eq_replicate
      intro i hi
      rw [pySlice_replicate]
      exact npMean_replicate_one _ (by omega)
  · rfl

theorem gainFold_no_trigger (sn : List ℝ) (sr fs fe : ℕ) (rc θl rl : ℝ)
    (starts : List ℕ) :
    ∀ (g : List ℝ) (det : ℝ),
      (∀ d ∈ Deesser.detectorLevels sn sr fs fe rc starts det, d ≤ θl) →
      Deesser.gainFold sn sr fs fe rc θl rl starts g det = g := by
  induction starts with
  | nil => intro g det _; rfl
  | cons i rest ih =>
      intro g det h
      have hd : Deesser.detStep rc (Deesser.combinedLevel sn sr fs fe i) det ≤ θl :=
        h _ (by simp only [Deesser.detectorLevels]; exact List.mem_cons_self _ _)
      simp only [Deesser.gainFold]
      rw [if_neg (not_lt.mpr hd)]
      exact ih g _ fun d hdm =>
        h d (by simp only [Deesser.detectorLevels]; exact List.mem_cons_of_mem _ hdm)

theorem rfft_two_len : (rfft ([1, -1] : List ℝ)).length = 2 := by
  rw [length_rfft]
  rfl

theorem rfft_two_getD1 : (rfft ([1, -1] : List ℝ)).getD 1 0 = 2 := by
  rw [getD_rfft _ 1 (by norm_num)]
  rw [show (([1, -1] : List ℝ)).length = 2 from rfl]
  rw [Finset.sum_range_succ, Finset.sum_range_succ, Finset.sum_range_zero]
  norm_num [cexpTurn_zero, cexpTurn_two_neg_one]

theorem irfft_zero_two : irfft [(0:ℂ), 2] = [1, -1] := by
  rw [irfft, show (([(0:ℂ), 2]).length) = 2 from rfl, show 2 * (2 - 1) = 2 from rfl,
    show List.range 2 = [0, 1] from rfl]
  simp only [List.map_cons, List.map_nil]
  rw [Finset.sum_range_succ, Finset.sum_range_succ, Finset.sum_range_zero,
    Finset.sum_range_succ, Finset.sum_range_succ, Finset.sum_range_zero]
  norm_num [hermWeight, cexpTurn_zero, cexpTurn_two_one]

theorem deesser_band_concrete : Deesser.bandSignal [1, -1, 0] 200 50 150 0 = [1, -1] := by
  simp only [Deesser.bandSignal]
  rw [show pySlice [1, -1, 0] 0 (0 + Deesser.windowSize 200) = [1, -1] from rfl]
  rw [rfft_two_len, show List.range 2 = [0, 1] from rfl,
    show (([1, -1] : List ℝ)).length = 2 from rfl]
  simp only [List.map_cons, List.map_nil]
  rw [if_neg (by norm_num [rfreq]), if_pos (by norm_num [rfreq])]
  rw [rfft_two_getD1]
  exact irfft_zero_two

theorem deesser_level_concrete : Deesser.combinedLevel [1, -1, 0] 200 50 150 0 = 1 := by
  simp only [Deesser.combinedLevel, deesser_band_concrete]
  norm_num [npMean, maxAbs, Real.sqrt_one]

theorem deesser_detector_concrete (rc : ℝ) :
    Deesser.detectorLevels [1, -1, 0] 200 50 150 rc [0] 0 = [1] := by
  simp only [Deesser.detectorLevels, Deesser.detStep, deesser_level_concrete]
  rw [if_pos (show (0:ℝ) < 1 from one_pos)]

/-- Claim C7: when the release-envelope detector level (0.6 rms + 0.4 peak of
the 6-9 kHz band) of every analysis window of the peak-normalized signal stays
at or below the linear threshold, src/deesser.py `apply_deesser` returns the
input bit-exactly (for in-range int16 input); and on the triggered example
`[10000, -10000, 0]` at 200 Hz (band 50-150 Hz, threshold -6 dB) the single
analysis window's detector level exceeds the threshold and the output's summed
squared energy over that window (hence its RMS) is strictly reduced. -/
theorem C7_deesser_detector_response (samples : List ℤ) (sr fs fe : ℕ) (θ : ℝ)
    (hrange : ∀ z ∈ samples, -32768 ≤ z ∧ z ≤ 32767)
    (hdet : ∀ d ∈ Deesser.detectorLevels
        ((toF samples).map fun x => x / maxAbs (toF samples)) sr fs fe
        (Real.exp (-1 / ((sr : ℝ) * (25 / 1000))))
        (Deesser.windowStarts samples.length sr) 0,
      d ≤ dB2lin θ) :
    Deesser.apply_deesser samples sr fs fe θ = samples ∧
    (∀ d ∈ Deesser.detectorLevels
        ((toF [10000, -10000, 0]).map fun x => x / maxAbs (toF [10000, -10000, 0]))
        200 50 150 (Real.exp (-1 / ((200 : ℝ) * (25 / 1000))))
        (Deesser.windowStarts 3 200) 0, dB2lin (-6) < d) ∧
    winSumSq (Deesser.apply_deesser [10000, -10000, 0] 200 50 150 (-6)) 0 2 <
      winSumSq [10000, -10000, 0] 0 2 := by
  have hx : toF [10000, -10000, 0] = [10000, -10000, 0] := by norm_num [toF]
  have hmv : maxAbs ([10000, -10000, 0] : List ℝ) = 10000 := by norm_num [maxAbs]
  have hsn : ([10000, -10000, 0] : List ℝ).map (fun x => x / 10000) = [1, -1, 0] := by
    norm_num
  have hθl : dB2lin (-6) < 1 := dB2lin_lt_one (by norm_num)
  have hθp : 0 < dB2lin (-6) := dB2lin_pos _
  have hrlp : 0 < dB2lin (-4) := dB2lin_pos _
  have hrl1 : dB2lin (-4) < 1 := dB2lin_lt_one (by norm_num)
  have hover : 1 < 1 / dB2lin (-6) := (one_lt_div hθp).mpr hθl
  have hq : 0 < (1 / dB2lin (-6) - 1) * 0.6 := by nlinarith
  have hminp : 0 < min 1 ((1 / dB2lin (-6) - 1) * 0.6) := lt_min one_pos hq
  have hmin1 : min 1 ((1 / dB2lin (-6) - 1) * 0.6) ≤ 1 := min_le_left _ _
  have hp1 : (1 - dB2lin (-4)) * min 1 ((1 / dB2lin (-6) - 1) * 0.6) < 1 := by
    have h := mul_le_of_le_one_right (by linarith : (0:ℝ) ≤ 1 - dB2lin (-4)) hmin1
    linarith
  have hp0 : 0 < (1 - dB2lin (-4)) * min 1 ((1 / dB2lin (-6) - 1) * 0.6) :=
    mul_pos (by linarith) hminp
  have hrfpos : 0 < Deesser.reductionFactor (dB2lin (-4)) (dB2lin (-6)) 1 := by
    rw [Deesser.reductionFactor]
    linarith
  have hrflt : Deesser.reductionFactor (dB2lin (-4)) (dB2lin (-6)) 1 < 1 := by
    rw [Deesser.reductionFactor]
    linarith
  have hM0 : 0 < min 1 (Deesser.reductionFactor (dB2lin (-4)) (dB2lin (-6)) 1) :=
    lt_min one_pos hrfpos
  have hM1 : min 1 (Deesser.reductionFactor (dB2lin (-4)) (dB2lin (-6)) 1) < 1 :=
    lt_of_le_of_lt (min_le_right _ _) hrflt
  have hb1 : ∀ d ∈ Deesser.detectorLevels
      ((toF [10000, -10000, 0]).map fun x => x / maxAbs (toF [10000, -10000, 0]))
      200 50 150 (Real.exp (-1 / ((200 : ℝ) * (25 / 1000))))
      (Deesser.windowStarts 3 200) 0, dB2lin (-6) < d := by
    rw [hx, hmv, hsn, show Deesser.windowStarts 3 200 = [0] from rfl,
      deesser_detector_concrete]
    intro d hd
    rw [List.mem_singleton] at hd
    rw [hd]
    exact hθl
  obtain ⟨m, hm0, hm1, hy⟩ : ∃ m : ℝ, 0 < m ∧ m < 1 ∧
      Deesser.apply_deesser [10000, -10000, 0] 200 50 150 (-6) =
        [truncZ (m * 10000), truncZ (-(m * 10000)), 0] := by
    refine ⟨min 1 (Deesser.reductionFactor (dB2lin (-4)) (dB2lin (-6)) 1), hM0, hM1, ?_⟩
    simp only [Deesser.apply_deesser]
    rw [hx, hmv, if_neg (by norm_num : ¬ (10000:ℝ) = 0), hsn]
    rw [show (([1, -1, 0] : List ℝ)).length = 3 from rfl]
    rw [show Deesser.windowStarts 3 200 = [0] from rfl]
    simp only [Deesser.gainFold, Deesser.detStep, deesser_level_concrete]
    rw [if_pos (show (0:ℝ) < 1 from one_pos)]
    rw [if_pos hθl]
    rw [show min (0 + Deesser.windowSize 200) (List.replicate 3 (1:ℝ)).length = 2 from rfl]
    have hupd : Deesser.updateRange (List.replicate 3 (1:ℝ)) 0 2
        (fun x => min x (Deesser.reductionFactor (dB2lin (-4)) (dB2lin (-6)) 1)) =
        [min 1 (Deesser.reductionFactor (dB2lin (-4)) (dB2lin (-6)) 1),
         min 1 (Deesser.reductionFactor (dB2lin (-4)) (dB2lin (-6)) 1), 1] := by
      rw [Deesser.updateRange, List.length_replicate, show List.range 3 = [0, 1, 2] from rfl]
      simp only [List.map_cons, List.map_nil]
      rw [if_pos (by omega : (0:ℕ) ≤ 0 ∧ 0 < 2), if_pos (by omega : (0:ℕ) ≤ 1 ∧ 1 < 2),
        if_neg (by omega : ¬ ((0:ℕ) ≤ 2 ∧ 2 < 2))]
      rw [show (List.replicate 3 (1:ℝ)).getD 0 0 = 1 from rfl,
        show (List.replicate 3 (1:ℝ)).getD 1 0 = 1 from rfl,
        show (List.replicate 3 (1:ℝ)).getD 2 0 = 1 from rfl]
    rw [hupd]
    rw [show (200:ℕ) / 1000 = 0 from rfl]
    rw [smoothGain, if_neg (by omega : ¬ 1 < 0)]
    rw [show List.zipWith (fun a b => a * b) ([1, -1, 0] : List ℝ)
        [min 1 (Deesser.reductionFactor (dB2lin (-4)) (dB2lin (-6)) 1),
         min 1 (Deesser.reductionFactor (dB2lin (-4)) (dB2lin (-6)) 1), 1] =
        [min 1 (Deesser.reductionFactor (dB2lin (-4)) (dB2lin (-6)) 1),
         -(min 1 (Deesser.reductionFactor (dB2lin (-4)) (dB2lin (-6)) 1)), 0] by
      norm_num]
    simp only [List.map_cons, List.map_nil]
    rw [neg_mul, zero_mul]
    rw [clipR_eq_self (by nlinarith) (by nlinarith)]
    rw [clipR_eq_self (by nlinarith) (by nlinarith)]
    rw [show clipR (-32768) 32767 0 = 0 from clipR_eq_self (by norm_num) (by norm_num)]
    rw [truncZ_zero]
  refine ⟨?_, hb1, ?_⟩
  · by_cases hmv0 : maxAbs (toF samples) = 0
    · simp only [Deesser.apply_deesser]
      rw [if_pos hmv0]
    · simp only [Deesser.apply_deesser]
      rw [if_neg hmv0]
      have hsnlen : ((toF samples).map fun x => x / maxAbs (toF samples)).length =
          samples.length := by simp [toF]
      rw [hsnlen]
      rw [gainFold_no_trigger _ _ _ _ _ _ _ _ _ _ hdet]
      rw [smoothGain_replicate_one]
      have hz : List.zipWith (fun a b => a * b)
          ((toF samples).map fun x => x / maxAbs (toF samples))
          (List.replicate samples.length 1) =
          (toF samples).map fun x => x / maxAbs (toF samples) := by
        conv_lhs => rw [← hsnlen]
        exact zipWith_mul_replicate_one _
      rw [hz]
      rw [show List.map (fun x => x * maxAbs (toF samples))
            (List.map (fun x => x / maxAbs (toF samples)) (toF samples)) =
          List.map ((fun x => x * maxAbs (toF samples)) ∘ fun x => x / maxAbs (toF samples))
            (toF samples) from List.map_map _ _ _]
      have hcomp : (toF samples).map
          ((fun x => x * maxAbs (toF samples)) ∘ fun x => x / maxAbs (toF samples)) =
          toF samples := by
        have h2 : (toF samples).map
            ((fun x => x * maxAbs (toF samples)) ∘ fun x => x / maxAbs (toF samples)) =
            (toF samples).map id := List.map_congr_left (by
          intro x hx
          simp only [Function.comp_apply, id_eq]
          exact div_mul_cancel₀ x hmv0)
        rw [h2, List.map_id]
      rw [hcomp]
      have hclipm : (toF samples).map (clipR (-32768) 32767) = toF samples := by
        have h2 : (toF samples).map (clipR (-32768) 32767) = (toF samples).map id :=
          List.map_congr_left (by
            intro x hx
            rw [toF, List.mem_map] at hx
            obtain ⟨z, hzmem, hzx⟩ := hx
            obtain ⟨hlo, hhi⟩ := hrange z hzmem
            rw [id_eq, ← hzx]
            exact clipR_eq_self (by exact_mod_cast hlo) (by exact_mod_cast hhi))
        rw [h2, List.map_id]
      rw [hclipm, toF, List.map_map]
      have h3 : samples.map (truncZ ∘ fun (z : ℤ) => (z : ℝ)) = samples.map id :=
        List.map_congr_left (by
          intro z hz
          simp only [Function.comp_apply, id_eq]
          exact truncZ_intCast z)
      rw [h3, List.map_id]
  · rw [hy]
    rw [show winSumSq [truncZ (m * 10000), truncZ (-(m * 10000)), 0] 0 2 =
        truncZ (m * 10000) ^ 2 + truncZ (-(m * 10000)) ^ 2 by
      simp [winSumSq, Finset.sum_range_succ]]
    rw [show winSumSq [10000, -10000, 0] 0 2 = 200000000 by
      norm_num [winSumSq, Finset.sum_range_succ]]
    have habs1 : |(truncZ (m * 10000) : ℝ)| < 10000 := by
      refine lt_of_le_of_lt (abs_truncZ_le _) ?_
      rw [abs_of_pos (by nlinarith)]
      nlinarith
    have habs2 : |(truncZ (-(m * 10000)) : ℝ)| < 10000 := by
      refine lt_of_le_of_lt (abs_truncZ_le _) ?_
      rw [abs_neg, abs_of_pos (by nlinarith)]
      nlinarith
    have hsq1 : (truncZ (m * 10000) : ℝ) ^ 2 < 100000000 := by
      have h := sq_abs ((truncZ (m * 10000) : ℤ) : ℝ)
      nlinarith [abs_nonneg ((truncZ (m * 10000) : ℤ) : ℝ)]
    have hsq2 : (truncZ (-(m * 10000)) : ℝ) ^ 2 < 100000000 := by
      have h := sq_abs ((truncZ (-(m * 10000)) : ℤ) : ℝ)
      nlinarith [abs_nonneg ((truncZ (-(m * 10000)) : ℤ) : ℝ)]
    have hfin : ((truncZ (m * 10000) ^ 2 + truncZ (-(m * 10000)) ^ 2 : ℤ) : ℝ) <
        200000000 := by
      push_cast
      linarith
    exact_mod_cast hfin

/-- Witness for C7: the two-sample buffer `[1000, -1000]` at 44100 Hz is shorter
than the 10 ms analysis window, so there are no window starts, the detector
condition holds vacuously, and the de-esser returns the buffer unchanged; the
triggered conjuncts of the theorem are closed. -/
theorem C7_deesser_detector_response_witness :
    (∀ z ∈ ([1000, -1000] : List ℤ), -32768 ≤ z ∧ z ≤ 32767) ∧
    (∀ d ∈ Deesser.detectorLevels
        ((toF [1000, -1000]).map fun x => x / maxAbs (toF [1000, -1000])) 44100 6000 9000
        (Real.exp (-1 / (((44100:ℕ) : ℝ) * (25 / 1000))))
        (Deesser.windowStarts ([1000, -1000] : List ℤ).length 44100) 0,
      d ≤ dB2lin (-25)) ∧
    (Deesser.apply_deesser [1000, -1000] 44100 6000 9000 (-25) = [1000, -1000] ∧
     (∀ d ∈ Deesser.detectorLevels
         ((toF [10000, -10000, 0]).map fun x => x / maxAbs (toF [10000, -10000, 0]))
         200 50 150 (Real.exp (-1 / ((200 : ℝ) * (25 / 1000))))
         (Deesser.windowStarts 3 200) 0, dB2lin (-6) < d) ∧
     winSumSq (Deesser.apply_deesser [10000, -10000, 0] 200 50 150 (-6)) 0 2 <
       winSumSq [10000, -10000, 0] 0 2) := by
  have h1 : ∀ z ∈ ([1000, -1000] : List ℤ), -32768 ≤ z ∧ z ≤ 32767 := by decide
  have h2 : ∀ d ∈ Deesser.detectorLevels
      ((toF [1000, -1000]).map fun x => x / maxAbs (toF [1000, -1000])) 44100 6000 9000
      (Real.exp (-1 / (((44100:ℕ) : ℝ) * (25 / 1000))))
      (Deesser.windowStarts ([1000, -1000] : List ℤ).length 44100) 0,
      d ≤ dB2lin (-25) := by
    intro d hd
    rw [show Deesser.windowStarts ([1000, -1000] : List ℤ).length 44100 = [] from rfl] at hd
    simp only [Deesser.detectorLevels] at hd
    exact absurd hd (List.not_mem_nil d)
  exact ⟨h1, h2, C7_deesser_detector_response [1000, -1000] 44100 6000 9000 (-25) h1 h2⟩

end DSP
